import Mathlib

/-!
Single-cell construction in a planar subdivision (`Arr_single_cell_2.h`)

A shallow embedding of `CGAL::CGALi::RI_observer` and
`CGAL::CGALi::Construct_single_cell_2`; the member function
`Sphere_3::orthogonal_transform` of `Sphere_3.h` follows the definitions of the
concrete world below.

Conventions of the embedding.

* The geometry kernel, the arrangement, the point location, the overlay and
  `std::random_shuffle` are external to the header; they are the fields of the
  records `Kernel` and `Prims`, and the general theorems hold for all of them.
* A handle is an identifier; what it designates is read from the arrangement
  value in which it is dereferenced, which is passed explicitly.
* `CGAL_assertion` is active: a failed assertion ends the computation with
  `Failure.assertion_failed`.
* A `CGAL::Timer` is the number of completed start/stop intervals; elapsed time
  is not represented.  Console output is not represented.
-/

namespace CGAL

/-- The ways a computation of the embedding ends without a result. -/
inductive Failure where
  | assertion_failed
  | out_of_fuel
  deriving DecidableEq

/-- The type `CGAL::Comparison_result`. -/
inductive Comparison_result where
  | SMALLER
  | EQUAL
  | LARGER
  deriving DecidableEq

/-- The type `CGAL::Arr_halfedge_direction`. -/
inductive Arr_halfedge_direction where
  | ARR_LEFT_TO_RIGHT
  | ARR_RIGHT_TO_LEFT
  deriving DecidableEq

/-- A `CGAL::Object` of the input range: a point, an x-monotone curve, a general
curve, or a value of any other type (also the empty object). -/
inductive Input_object (P X C : Type) where
  | point (p : P)
  | xcurve (x : X)
  | curve (c : C)
  | other
  deriving DecidableEq

/-- A `CGAL::Object` that is used as a cell handle: it wraps a vertex handle, a
halfedge handle or a face handle, or it holds none of them. -/
inductive Cell_object (V H F : Type) where
  | vertex (v : V)
  | halfedge (h : H)
  | face (f : F)
  | empty
  deriving DecidableEq

/-- A `CGAL::Timer`, reduced to whether it runs and how many intervals it has
completed. -/
structure Timer where
  running : Bool
  intervals : Nat
  deriving DecidableEq

/-- A timer as constructed. -/
def Timer.fresh : Timer := ⟨false, 0⟩

/-- The call `Timer::start()`. -/
def Timer.start (t : Timer) : Timer := { t with running := true }

/-- The call `Timer::stop()`. -/
def Timer.stop (t : Timer) : Timer := ⟨false, t.intervals + 1⟩

/-- The functors of `Geometry_traits_2` and of its adaptor that the header
uses. -/
structure Kernel (P X C : Type) where
  make_x_monotone : C → List (Input_object P X C)
  is_vertical : X → Bool
  is_in_x_range : X → P → Bool
  compare_y_at_x : P → X → Comparison_result
  compare_y_position : X → X → Comparison_result

/-- A boundary cycle as the circulator loop of `cell_arr` walks it: the
halfedge the cycle is entered at, then the halfedges met by `he++` until the
circulator is back at the entry. -/
structure Ccb (H : Type) where
  first : H
  rest : List H
  deriving DecidableEq

/-- The halfedges of a boundary cycle in the order of the walk. -/
def Ccb.halfedges {H : Type} (c : Ccb H) : List H := c.first :: c.rest

/-- The notifications of `Arr_observer` that `RI_observer` overrides. -/
inductive Notification (X V H F : Type) where
  | before_split_face (f : F) (e : H)
  | after_split_face (f : F) (new_f : F) (is_hole : Bool)
  | before_split_edge (e : H) (v : V) (c1 : X) (c2 : X)
  | after_split_edge (e1 : H) (e2 : H)
  | before_split_fictitious_edge (e : H) (v : V)
  | after_split_fictitious_edge (e1 : H) (e2 : H)
  deriving DecidableEq

/-- The arrangement package, the point location, the overlay and the standard
library as the header uses them.  `A` is the type of arrangement values and `G`
the state of the random number generator behind `std::random_shuffle`.
`insert` returns the notifications it raises, each with the arrangement as it
is when the notification is raised, and the arrangement after the insertion. -/
structure Prims (P X V H F A G : Type) where
  empty_arr : A
  insert_empty : A → List X → List P → A
  non_intersecting_insert_empty : A → List X → List P → A
  insert : A → X → List (A × Notification X V H F) × A
  locate : A → P → Cell_object V H F
  overlay : A → A → A
  faces_begin : A → F
  top_right_vertex : A → V
  top_left_vertex : A → V
  incident_halfedges : A → V → H
  circulator_incr : A → H → H
  source : A → H → V
  twin : A → H → H
  face : A → H → F
  direction : A → H → Arr_halfedge_direction
  is_fictitious : A → H → Bool
  curve : A → H → X
  point : A → V → P
  outer_ccbs : A → F → List (Ccb H)
  inner_ccbs : A → F → List (Ccb H)
  isolated_vertices : A → F → List V
  random_shuffle_xcvs : G → List X → List X × G
  random_shuffle_pts : G → List P → List P × G
  random_shuffle_xcvs_perm : ∀ g l, (random_shuffle_xcvs g l).1.Perm l
  random_shuffle_pts_perm : ∀ g l, (random_shuffle_pts g l).1.Perm l

/-- The data members of `Construct_single_cell_2`. -/
structure Construct_single_cell_2 (P X C V H F A : Type) where
  _m_objects : List (Input_object P X C)
  _m_xcvs : List X
  _m_pts : List P
  _m_cell_handle_pl : Option (Cell_object V H F)
  _m_cell_handle_ri : Option (Cell_object V H F)
  _m_cell_handle_rbo : Option (Cell_object V H F)
  _m_full_arr : Option A
  _m_arr_city : Option A
  _m_arr_purple : Option A
  _mt_full_arr : Timer
  _mt_pl : Timer
  _mt_cell : Timer
  _mt_rec_anchor : Timer
  _mt_rec_overlay : Timer
  deriving DecidableEq

namespace Construct_single_cell_2

variable {P X C V H F A G : Type}

/-- The members as the constructor's member-init list leaves them, before the
loop over the input range. -/
def blank : Construct_single_cell_2 P X C V H F A :=
  { _m_objects := [], _m_xcvs := [], _m_pts := [],
    _m_cell_handle_pl := none, _m_cell_handle_ri := none, _m_cell_handle_rbo := none,
    _m_full_arr := none, _m_arr_city := none, _m_arr_purple := none,
    _mt_full_arr := Timer.fresh, _mt_pl := Timer.fresh, _mt_cell := Timer.fresh,
    _mt_rec_anchor := Timer.fresh, _mt_rec_overlay := Timer.fresh }

/-- The inner loop of the constructor over the pieces `make_x_monotone` has
written to `tmp`. -/
def push_pieces (s : Construct_single_cell_2 P X C V H F A) :
    List (Input_object P X C) → Except Failure (Construct_single_cell_2 P X C V H F A)
  | [] => .ok s
  | .xcurve x :: rest => push_pieces { s with _m_xcvs := s._m_xcvs ++ [x] } rest
  | .point p :: rest => push_pieces { s with _m_pts := s._m_pts ++ [p] } rest
  | _ :: _ => .error .assertion_failed

/-- One round of the constructor's loop over the input range. -/
def push_object (K : Kernel P X C) (s : Construct_single_cell_2 P X C V H F A)
    (o : Input_object P X C) : Except Failure (Construct_single_cell_2 P X C V H F A) :=
  let s1 := { s with _m_objects := s._m_objects ++ [o] }
  match o with
  | .curve c => push_pieces s1 (K.make_x_monotone c)
  | .xcurve x => .ok { s1 with _m_xcvs := s1._m_xcvs ++ [x] }
  | .point p => .ok { s1 with _m_pts := s1._m_pts ++ [p] }
  | .other => .error .assertion_failed

/-- The constructor's loop over the input range. -/
def push_objects (K : Kernel P X C) (s : Construct_single_cell_2 P X C V H F A) :
    List (Input_object P X C) → Except Failure (Construct_single_cell_2 P X C V H F A)
  | [] => .ok s
  | o :: rest =>
    match push_object K s o with
    | .ok s1 => push_objects K s1 rest
    | .error e => .error e

/-- The constructor `Construct_single_cell_2(begin, end)`. -/
def init (K : Kernel P X C) (objects : List (Input_object P X C)) :
    Except Failure (Construct_single_cell_2 P X C V H F A) :=
  push_objects K blank objects

/-- The x-monotone curve an object holds, when `CGAL::assign` to an x-monotone
curve succeeds on it. -/
def as_xcurve : Input_object P X C → Option X
  | .xcurve x => some x
  | _ => none

/-- The point an object holds, when `CGAL::assign` to a point succeeds on
it. -/
def as_point : Input_object P X C → Option P
  | .point p => some p
  | _ => none

/-- Whether an object is an x-monotone curve or a point. -/
def is_piece : Input_object P X C → Bool
  | .xcurve _ => true
  | .point _ => true
  | _ => false

/-- Whether an input object is a point, an x-monotone curve, or a general curve
that the kernel decomposes into x-monotone curves and points only. -/
def well_formed (K : Kernel P X C) : Input_object P X C → Bool
  | .curve c => (K.make_x_monotone c).all is_piece
  | .xcurve _ => true
  | .point _ => true
  | .other => false

/-- The curves one input object contributes according to the contract of the
classifier: the x-monotone pieces of a general curve in decomposition order,
an x-monotone curve itself, nothing for a point. -/
def spec_curves (K : Kernel P X C) : Input_object P X C → List X
  | .curve c => (K.make_x_monotone c).filterMap as_xcurve
  | .xcurve x => [x]
  | _ => []

/-- The points one input object contributes according to the contract of the
classifier: the isolated-point pieces of a general curve in decomposition
order, a point itself, nothing for an x-monotone curve. -/
def spec_points (K : Kernel P X C) : Input_object P X C → List P
  | .curve c => (K.make_x_monotone c).filterMap as_point
  | .point p => [p]
  | _ => []

/-- Whether an input object is a general curve. -/
def is_general_curve : Input_object P X C → Bool
  | .curve _ => true
  | _ => false

section cell_arr

variable [DecidableEq X]

/-- The body of the boundary loops of `cell_arr` for one halfedge: the curve of
a halfedge that is not fictitious is appended unless `std::find` meets an equal
curve in `cell_xcvs`. -/
def add_curve (Pr : Prims P X V H F A G) (a : A) (cell_xcvs : List X) (he : H) : List X :=
  if Pr.is_fictitious a he then cell_xcvs
  else if Pr.curve a he ∈ cell_xcvs then cell_xcvs
  else cell_xcvs ++ [Pr.curve a he]

/-- The walk of `cell_arr` around one boundary cycle: the entry halfedge first,
then the circulator loop. -/
def walk_ccb (Pr : Prims P X V H F A G) (a : A) (cell_xcvs : List X) (c : Ccb H) : List X :=
  c.rest.foldl (add_curve Pr a) (add_curve Pr a cell_xcvs c.first)

/-- A loop of `cell_arr` over a range of boundary cycles. -/
def walk_ccbs (Pr : Prims P X V H F A G) (a : A) (cell_xcvs : List X) (cs : List (Ccb H)) :
    List X :=
  cs.foldl (walk_ccb Pr a) cell_xcvs

/-- The list `cell_xcvs` of `cell_arr` for a face handle: the outer boundary
cycles are walked, then the inner ones. -/
def face_xcvs (Pr : Prims P X V H F A G) (a : A) (fh : F) : List X :=
  walk_ccbs Pr a (walk_ccbs Pr a [] (Pr.outer_ccbs a fh)) (Pr.inner_ccbs a fh)

/-- The list `cell_pts` of `cell_arr` for a face handle: the loop over the
isolated vertices of the face. -/
def face_pts (Pr : Prims P X V H F A G) (a : A) (fh : F) : List P :=
  (Pr.isolated_vertices a fh).foldl (fun cell_pts vt => cell_pts ++ [Pr.point a vt]) []

/-- The halfedges on the boundary of a face: those of its outer boundary
cycles, then those of its inner boundary cycles, each cycle in the order of its
walk. -/
def boundary_halfedges (Pr : Prims P X V H F A G) (a : A) (fh : F) : List H :=
  (Pr.outer_ccbs a fh ++ Pr.inner_ccbs a fh).flatMap Ccb.halfedges

/-- The curves carried by the boundary halfedges of a face that are not
fictitious, one entry per halfedge. -/
def boundary_curves (Pr : Prims P X V H F A G) (a : A) (fh : F) : List X :=
  ((boundary_halfedges Pr a fh).filter (fun he => !Pr.is_fictitious a he)).map (Pr.curve a)

/-- Appends a curve to a list that holds no equal curve. -/
def push_back_new (l : List X) (cv : X) : List X :=
  if cv ∈ l then l else l ++ [cv]

/-- The lists `cell_xcvs` and `cell_pts` that `cell_arr` has collected when it
reaches the insertion; `a` is the arrangement the handle points into. -/
def cell_lists (Pr : Prims P X V H F A G) (a : A) :
    Cell_object V H F → Except Failure (List X × List P)
  | .vertex vh => .ok ([], [Pr.point a vh])
  | .halfedge heh => .ok ([Pr.curve a heh], [])
  | .face fh => .ok (face_xcvs Pr a fh, face_pts Pr a fh)
  | .empty => .error .assertion_failed

/-- The member function `cell_arr(cell_handle, cell)`; `a` is the arrangement
the handle points into, the result holds the members and the target `cell`
after the call. -/
def cell_arr (Pr : Prims P X V H F A G) (s : Construct_single_cell_2 P X C V H F A) (a : A)
    (cell_handle : Cell_object V H F) (cell : A) :
    Except Failure (Construct_single_cell_2 P X C V H F A × A) :=
  let s1 := { s with _mt_cell := s._mt_cell.start }
  match cell_lists Pr a cell_handle with
  | .error e => .error e
  | .ok lists =>
    let cell1 := Pr.non_intersecting_insert_empty cell lists.1 lists.2
    .ok ({ s1 with _mt_cell := s1._mt_cell.stop }, cell1)

end cell_arr

/-- The member function `cell_pl(pt)`. -/
def cell_pl (Pr : Prims P X V H F A G) (s : Construct_single_cell_2 P X C V H F A) (pt : P) :
    Construct_single_cell_2 P X C V H F A × Cell_object V H F :=
  match s._m_cell_handle_pl with
  | some cell_handle => (s, cell_handle)
  | none =>
    let full_arr := Pr.insert_empty Pr.empty_arr s._m_xcvs s._m_pts
    let cell_handle := Pr.locate full_arr pt
    ({ s with _m_full_arr := some full_arr,
              _mt_full_arr := s._mt_full_arr.start.stop,
              _m_cell_handle_pl := some cell_handle,
              _mt_pl := s._mt_pl.start.stop }, cell_handle)

end Construct_single_cell_2

/-- The data members of `RI_observer`. -/
structure RI_observer (P V H F : Type) where
  _m_point : P
  _m_halfedge_handle : H
  _m_cell_handle : Cell_object V H F
  deriving DecidableEq

namespace RI_observer

variable {P X C V H F A G : Type}

/-- The constructor `RI_observer(arr, point)`. -/
def init [DecidableEq V] (Pr : Prims P X V H F A G) (arr : A) (point : P) :
    Except Failure (RI_observer P V H F) :=
  let vtr := Pr.top_right_vertex arr
  let heh := Pr.circulator_incr arr (Pr.incident_halfedges arr vtr)
  let vtl := Pr.top_left_vertex arr
  if Pr.source arr heh = vtl then
    let halfedge_handle := Pr.twin arr heh
    if Pr.direction arr halfedge_handle = .ARR_RIGHT_TO_LEFT then
      .ok ⟨point, halfedge_handle, .face (Pr.face arr halfedge_handle)⟩
    else .error .assertion_failed
  else .error .assertion_failed

/-- The notification `before_split_face(f, e)`, raised on the arrangement
`arr`. -/
def before_split_face (K : Kernel P X C) (Pr : Prims P X V H F A G) (arr : A)
    (o : RI_observer P V H F) (e : H) : RI_observer P V H F :=
  let cv := Pr.curve arr e
  if !K.is_vertical cv then
    if K.is_in_x_range cv o._m_point then
      match K.compare_y_at_x o._m_point cv with
      | .SMALLER =>
        if K.compare_y_position cv (Pr.curve arr o._m_halfedge_handle) = .SMALLER then
          { o with _m_halfedge_handle :=
              if Pr.direction arr e = .ARR_RIGHT_TO_LEFT then e else Pr.twin arr e }
        else o
      | .EQUAL => o
      | .LARGER => o
    else o
  else o

/-- The observer after one notification raised on the arrangement `arr`. Only
`before_split_face` writes a member. -/
def notify (K : Kernel P X C) (Pr : Prims P X V H F A G) (arr : A)
    (o : RI_observer P V H F) : Notification X V H F → RI_observer P V H F
  | .before_split_face _ e => before_split_face K Pr arr o e
  | .after_split_face _ _ _ => o
  | .before_split_edge _ _ _ _ => o
  | .after_split_edge _ _ => o
  | .before_split_fictitious_edge _ _ => o
  | .after_split_fictitious_edge _ _ => o

/-- The observer after the notifications of one insertion, in the order they
are raised. -/
def notify_all (K : Kernel P X C) (Pr : Prims P X V H F A G) (o : RI_observer P V H F)
    (trace : List (A × Notification X V H F)) : RI_observer P V H F :=
  trace.foldl (fun o1 n => notify K Pr n.1 o1 n.2) o

/-- The member function `on_update()`, called on the arrangement `arr`. -/
def on_update (Pr : Prims P X V H F A G) (arr : A) (o : RI_observer P V H F) :
    Except Failure (RI_observer P V H F) :=
  if Pr.direction arr o._m_halfedge_handle = .ARR_RIGHT_TO_LEFT then
    .ok { o with _m_cell_handle := .face (Pr.face arr o._m_halfedge_handle) }
  else .error .assertion_failed

/-- The member function `cell_handle()`. -/
def cell_handle (o : RI_observer P V H F) : Cell_object V H F := o._m_cell_handle

end RI_observer

namespace Construct_single_cell_2

variable {P X C V H F A G : Type} [DecidableEq X] [DecidableEq V]

/-- The loop of `cell_ri` over the shuffled curves. `city` is the value of
`*_m_arr_city`; each round inserts one curve, takes the handle from the
observer, builds `new_city` with `cell_arr` and assigns it to `_m_arr_city`. -/
def ri_loop (K : Kernel P X C) (Pr : Prims P X V H F A G) :
    Construct_single_cell_2 P X C V H F A → A → RI_observer P V H F → Cell_object V H F →
    List X →
    Except Failure (Construct_single_cell_2 P X C V H F A × A × RI_observer P V H F ×
      Cell_object V H F)
  | s, city, obs, cell_handle, [] => .ok (s, city, obs, cell_handle)
  | s, city, obs, _, cv :: rest =>
    let inserted := Pr.insert city cv
    let obs1 := obs.notify_all K Pr inserted.1
    let cell_handle := obs1.cell_handle
    match cell_arr Pr s inserted.2 cell_handle Pr.empty_arr with
    | .error e => .error e
    | .ok (s1, new_city) => ri_loop K Pr s1 new_city obs1 cell_handle rest

/-- The member function `cell_ri(pt)` with `CGAL_SINGLE_CELL_RI_NAIVE` at its
value 0; `g` is the state of the random number generator. -/
def cell_ri (K : Kernel P X C) (Pr : Prims P X V H F A G)
    (s : Construct_single_cell_2 P X C V H F A) (g : G) (pt : P) :
    Except Failure (Construct_single_cell_2 P X C V H F A × G × Cell_object V H F) :=
  match s._m_cell_handle_ri with
  | some cell_handle => .ok (s, g, cell_handle)
  | none =>
    let city := Pr.non_intersecting_insert_empty Pr.empty_arr [] s._m_pts
    match Pr.locate city pt with
    | .face _ =>
      let shuffled := Pr.random_shuffle_xcvs g s._m_xcvs
      let s1 := { s with _m_arr_city := some city, _m_xcvs := shuffled.1 }
      let cell_handle := Cell_object.face (Pr.faces_begin city)
      match RI_observer.init Pr city pt with
      | .error e => .error e
      | .ok obs =>
        match ri_loop K Pr s1 city obs cell_handle shuffled.1 with
        | .error e => .error e
        | .ok (s2, city2, _, cell_handle2) =>
          .ok ({ s2 with _m_arr_city := some city2, _m_cell_handle_ri := some cell_handle2 },
               shuffled.2, cell_handle2)
    | cell_handle =>
      .ok ({ s with _m_arr_city := some city, _m_cell_handle_ri := some cell_handle },
           g, cell_handle)

/-- The arrangement a handle returned by `cell_rbo_naive` points into:
`_m_arr_purple` when the instance has built it, `_m_full_arr` otherwise. -/
def rbo_arr (Pr : Prims P X V H F A G) (s : Construct_single_cell_2 P X C V H F A) : A :=
  match s._m_arr_purple with
  | some a => a
  | none =>
    match s._m_full_arr with
    | some a => a
    | none => Pr.empty_arr

/-- The list `objects` that `cell_rbo_naive` builds for one half. -/
def half_objects (xcvs : List X) (pts : List P) : List (Input_object P X C) :=
  xcvs.map Input_object.xcurve ++ pts.map Input_object.point

/-- The member function `cell_rbo_naive(pt)`, with a bound on the depth of the
recursion. -/
def cell_rbo_naive_fuel (K : Kernel P X C) (Pr : Prims P X V H F A G) :
    Nat → Construct_single_cell_2 P X C V H F A → G → P →
    Except Failure (Construct_single_cell_2 P X C V H F A × G × Cell_object V H F)
  | 0, _, _, _ => .error .out_of_fuel
  | fuel + 1, s, g, pt =>
    match s._m_cell_handle_rbo with
    | some cell_handle => .ok (s, g, cell_handle)
    | none =>
      if s._m_xcvs.length + s._m_pts.length ≤ 4 then
        let r := cell_pl Pr { s with _mt_rec_anchor := s._mt_rec_anchor.start } pt
        .ok ({ r.1 with _mt_rec_anchor := r.1._mt_rec_anchor.stop,
                        _m_cell_handle_rbo := some r.2 }, g, r.2)
      else
        let sx := Pr.random_shuffle_xcvs g s._m_xcvs
        let sp := Pr.random_shuffle_pts sx.2 s._m_pts
        let s1 := { s with _m_xcvs := sx.1, _m_pts := sp.1 }
        let xcvs0 := sx.1.take (sx.1.length / 2)
        let xcvs1 := sx.1.drop (sx.1.length / 2)
        let pts0 := sp.1.take (sp.1.length / 2)
        let pts1 := sp.1.drop (sp.1.length / 2)
        match init K (half_objects xcvs0 pts0) with
        | .error e => .error e
        | .ok recursive0 =>
          match cell_rbo_naive_fuel K Pr fuel recursive0 sp.2 pt with
          | .error e => .error e
          | .ok (r0, g0, cell_handle0) =>
            match cell_arr Pr s1 (rbo_arr Pr r0) cell_handle0 Pr.empty_arr with
            | .error e => .error e
            | .ok (s2, cell0) =>
              match init K (half_objects xcvs1 pts1) with
              | .error e => .error e
              | .ok recursive1 =>
                match cell_rbo_naive_fuel K Pr fuel recursive1 g0 pt with
                | .error e => .error e
                | .ok (r1, g1, cell_handle1) =>
                  match cell_arr Pr s2 (rbo_arr Pr r1) cell_handle1 Pr.empty_arr with
                  | .error e => .error e
                  | .ok (s3, cell1) =>
                    let arr_purple := Pr.overlay cell0 cell1
                    let cell_handle := Pr.locate arr_purple pt
                    .ok ({ s3 with _mt_rec_overlay := s3._mt_rec_overlay.start.stop,
                                   _m_arr_purple := some arr_purple,
                                   _mt_pl := s3._mt_pl.start.stop,
                                   _m_cell_handle_rbo := some cell_handle },
                         g1, cell_handle)

/-- The member function `cell_rbo_naive(pt)`: the recursion is run with a depth
bound that the number of classified objects never exhausts. -/
def cell_rbo_naive (K : Kernel P X C) (Pr : Prims P X V H F A G)
    (s : Construct_single_cell_2 P X C V H F A) (g : G) (pt : P) :
    Except Failure (Construct_single_cell_2 P X C V H F A × G × Cell_object V H F) :=
  cell_rbo_naive_fuel K Pr (s._m_xcvs.length + s._m_pts.length + 1) s g pt

/-- The member function `cell_rbo(pt)`. -/
def cell_rbo (s : Construct_single_cell_2 P X C V H F A) (_pt : P) :
    Construct_single_cell_2 P X C V H F A × Cell_object V H F :=
  match s._m_cell_handle_rbo with
  | some cell_handle => (s, cell_handle)
  | none => ({ s with _m_cell_handle_rbo := some Cell_object.empty }, Cell_object.empty)

/-- The recursive case of `cell_rbo_naive(pt)` (the `else` branch of the size
test), with the call `recursive.cell_rbo_naive(pt)` on the instance of a half
passed as `rec_call`. -/
def rbo_split (K : Kernel P X C) (Pr : Prims P X V H F A G)
    (rec_call : Construct_single_cell_2 P X C V H F A → G → P →
      Except Failure (Construct_single_cell_2 P X C V H F A × G × Cell_object V H F))
    (s : Construct_single_cell_2 P X C V H F A) (g : G) (pt : P) :
    Except Failure (Construct_single_cell_2 P X C V H F A × G × Cell_object V H F) :=
  let sx := Pr.random_shuffle_xcvs g s._m_xcvs
  let sp := Pr.random_shuffle_pts sx.2 s._m_pts
  let s1 := { s with _m_xcvs := sx.1, _m_pts := sp.1 }
  let xcvs0 := sx.1.take (sx.1.length / 2)
  let xcvs1 := sx.1.drop (sx.1.length / 2)
  let pts0 := sp.1.take (sp.1.length / 2)
  let pts1 := sp.1.drop (sp.1.length / 2)
  match init K (half_objects xcvs0 pts0) with
  | .error e => .error e
  | .ok recursive0 =>
    match rec_call recursive0 sp.2 pt with
    | .error e => .error e
    | .ok (r0, g0, cell_handle0) =>
      match cell_arr Pr s1 (rbo_arr Pr r0) cell_handle0 Pr.empty_arr with
      | .error e => .error e
      | .ok (s2, cell0) =>
        match init K (half_objects xcvs1 pts1) with
        | .error e => .error e
        | .ok recursive1 =>
          match rec_call recursive1 g0 pt with
          | .error e => .error e
          | .ok (r1, g1, cell_handle1) =>
            match cell_arr Pr s2 (rbo_arr Pr r1) cell_handle1 Pr.empty_arr with
            | .error e => .error e
            | .ok (s3, cell1) =>
              let arr_purple := Pr.overlay cell0 cell1
              let cell_handle := Pr.locate arr_purple pt
              .ok ({ s3 with _mt_rec_overlay := s3._mt_rec_overlay.start.stop,
                             _m_arr_purple := some arr_purple,
                             _mt_pl := s3._mt_pl.start.stop,
                             _m_cell_handle_rbo := some cell_handle },
                   g1, cell_handle)

/-- The members of the instance `recursive` that the constructor builds from the
objects of one half: the curves and points of the half, empty slots. -/
def half_instance (xcvs : List X) (pts : List P) : Construct_single_cell_2 P X C V H F A :=
  { (blank : Construct_single_cell_2 P X C V H F A) with
    _m_objects := half_objects xcvs pts, _m_xcvs := xcvs, _m_pts := pts }

/-- The members after the two calls of `std::random_shuffle` that open the
recursive case of `cell_rbo_naive`, and the generator state after them. -/
def rbo_shuffled (Pr : Prims P X V H F A G) (s : Construct_single_cell_2 P X C V H F A) (g : G) :
    Construct_single_cell_2 P X C V H F A × G :=
  let sx := Pr.random_shuffle_xcvs g s._m_xcvs
  let sp := Pr.random_shuffle_pts sx.2 s._m_pts
  ({ s with _m_xcvs := sx.1, _m_pts := sp.1 }, sp.2)

/-- The instance `recursive` of the red half (`i = 0`): the curves before
`xcvs_mid` and the points before `pts_mid`. -/
def red_half (s : Construct_single_cell_2 P X C V H F A) : Construct_single_cell_2 P X C V H F A :=
  half_instance (s._m_xcvs.take (s._m_xcvs.length / 2)) (s._m_pts.take (s._m_pts.length / 2))

/-- The instance `recursive` of the blue half (`i = 1`): the curves from
`xcvs_mid` on and the points from `pts_mid` on. -/
def blue_half (s : Construct_single_cell_2 P X C V H F A) : Construct_single_cell_2 P X C V H F A :=
  half_instance (s._m_xcvs.drop (s._m_xcvs.length / 2)) (s._m_pts.drop (s._m_pts.length / 2))

/-- The members after the recursive case of `cell_rbo_naive` has stored the
overlay `arr_purple` and the handle located in it; `s3` holds the members after
the second call of `cell_arr`. -/
def rbo_merged (Pr : Prims P X V H F A G) (s3 : Construct_single_cell_2 P X C V H F A)
    (arr_purple : A) (pt : P) : Construct_single_cell_2 P X C V H F A :=
  { s3 with _mt_rec_overlay := s3._mt_rec_overlay.start.stop,
            _m_arr_purple := some arr_purple,
            _mt_pl := s3._mt_pl.start.stop,
            _m_cell_handle_rbo := some (Pr.locate arr_purple pt) }

/-- The number of classified objects, `_m_xcvs.size() + _m_pts.size()`. -/
def size (s : Construct_single_cell_2 P X C V H F A) : Nat :=
  s._m_xcvs.length + s._m_pts.length

end Construct_single_cell_2

end CGAL

/-!
A concrete world: arrangements of horizontal lines

The primitives instantiated for the unbounded curves `y = c` with `c` a natural
number, and points with natural coordinates.  A face is named by the line that
bounds it from above, so that a face keeps its name when a line is inserted
below its upper boundary; `Fc.below none` is the face under the top edge of the
frame.
-/

namespace Lines

open CGAL

/-- A point `(x, y)`. -/
abbrev Pt := Nat × Nat

/-- Vertices: two corners of the frame and the isolated points. -/
inductive Vtx where
  | top_left
  | top_right
  | isolated (p : Pt)
  deriving DecidableEq

/-- Halfedges: the two halfedges of a line, the two halfedges of the top edge of
the frame, and the other edges of the frame. -/
inductive Hedge where
  | line (y : Nat) (rtl : Bool)
  | top (rtl : Bool)
  | side
  deriving DecidableEq

/-- Faces: the fictitious face outside the frame, and the strip under a line or
under the top edge of the frame. -/
inductive Fc where
  | fictitious
  | below (y : Option Nat)
  deriving DecidableEq

/-- An arrangement: its lines and its isolated points, in insertion order. -/
structure Arr where
  lines : List Nat
  pts : List Pt
  deriving DecidableEq

/-- Comparison of two heights. -/
def cmp (a b : Nat) : Comparison_result :=
  if a < b then .SMALLER else if a = b then .EQUAL else .LARGER

/-- The kernel of horizontal lines; a general curve is a finite union of
lines. -/
def kernel : Kernel Pt Nat (List Nat) where
  make_x_monotone := fun c => c.map Input_object.xcurve
  is_vertical := fun _ => false
  is_in_x_range := fun _ _ => true
  compare_y_at_x := fun p y => cmp p.2 y
  compare_y_position := fun y1 y2 => cmp y1 y2

/-- Adds an element to a list that does not hold it yet. -/
def add_new {α : Type} [DecidableEq α] (l : List α) (x : α) : List α :=
  if x ∈ l then l else l ++ [x]

/-- The lowest line above height `y`. -/
def line_above (ls : List Nat) (y : Nat) : Option Nat :=
  ls.foldl (fun best c =>
    if y < c then
      match best with
      | none => some c
      | some b => some (min b c)
    else best) none

/-- The highest line under the upper boundary `hi`. -/
def line_below (ls : List Nat) (hi : Option Nat) : Option Nat :=
  ls.foldl (fun best c =>
    if (match hi with
        | none => true
        | some h => decide (c < h)) then
      match best with
      | none => some c
      | some b => some (max b c)
    else best) none

/-- Whether height `y` lies strictly inside the strip under `hi`. -/
def in_strip (ls : List Nat) (hi : Option Nat) (y : Nat) : Bool :=
  (match hi with
   | none => true
   | some h => decide (y < h)) &&
  (match line_below ls hi with
   | none => true
   | some l => decide (l < y))

/-- Bulk insertion of lines and points. -/
def insert_all (a : Arr) (xs : List Nat) (ps : List Pt) : Arr :=
  ⟨xs.foldl add_new a.lines, ps.foldl add_new a.pts⟩

/-- Insertion of one line: a line that is new splits the strip it runs
through. -/
def insert_line (a : Arr) (y : Nat) : List (Arr × Notification Nat Vtx Hedge Fc) × Arr :=
  if y ∈ a.lines then ([], a)
  else
    let a1 : Arr := ⟨a.lines ++ [y], a.pts⟩
    let f := Fc.below (line_above a.lines y)
    ([(a1, .before_split_face f (.line y false)),
      (a1, .after_split_face f (.below (some y)) false)], a1)

/-- Point location. -/
def locate (a : Arr) (p : Pt) : Cell_object Vtx Hedge Fc :=
  if p ∈ a.pts then .vertex (.isolated p)
  else if p.2 ∈ a.lines then .halfedge (.line p.2 true)
  else .face (.below (line_above a.lines p.2))

/-- The twin of a halfedge. -/
def twin : Hedge → Hedge
  | .line y rtl => .line y (!rtl)
  | .top rtl => .top (!rtl)
  | .side => .side

/-- The face to the left of a halfedge. -/
def face (a : Arr) : Hedge → Fc
  | .line y true => .below (some y)
  | .line y false => .below (line_above a.lines y)
  | .top true => .below none
  | .top false => .fictitious
  | .side => .fictitious

/-- The direction of a halfedge. -/
def direction : Hedge → Arr_halfedge_direction
  | .line _ true => .ARR_RIGHT_TO_LEFT
  | .line _ false => .ARR_LEFT_TO_RIGHT
  | .top true => .ARR_RIGHT_TO_LEFT
  | .top false => .ARR_LEFT_TO_RIGHT
  | .side => .ARR_LEFT_TO_RIGHT

/-- The outer boundary of a strip: its upper halfedge, a piece of the frame, its
lower halfedge, a piece of the frame. -/
def outer_ccbs (a : Arr) : Fc → List (Ccb Hedge)
  | .fictitious => []
  | .below hi =>
    [⟨(match hi with
        | some y => Hedge.line y true
        | none => Hedge.top true),
      [Hedge.side,
       (match line_below a.lines hi with
        | some y => Hedge.line y false
        | none => Hedge.side),
       Hedge.side]⟩]

/-- The isolated points inside a strip. -/
def isolated_vertices (a : Arr) : Fc → List Vtx
  | .fictitious => []
  | .below hi => (a.pts.filter (fun p => in_strip a.lines hi p.2)).map Vtx.isolated

/-- The primitives of the world of horizontal lines. The shuffle reverses the
sequence. -/
def prims : Prims Pt Nat Vtx Hedge Fc Arr Nat where
  empty_arr := ⟨[], []⟩
  insert_empty := insert_all
  non_intersecting_insert_empty := insert_all
  insert := insert_line
  locate := locate
  overlay := fun a b => insert_all a b.lines b.pts
  faces_begin := fun _ => .below none
  top_right_vertex := fun _ => .top_right
  top_left_vertex := fun _ => .top_left
  incident_halfedges := fun _ _ => .side
  circulator_incr := fun _ h =>
    match h with
    | .side => .top false
    | _ => .side
  source := fun _ h =>
    match h with
    | .top false => .top_left
    | _ => .top_right
  twin := fun _ h => twin h
  face := face
  direction := fun _ h => direction h
  is_fictitious := fun _ h =>
    match h with
    | .line _ _ => false
    | _ => true
  curve := fun _ h =>
    match h with
    | .line y _ => y
    | _ => 0
  point := fun _ v =>
    match v with
    | .isolated p => p
    | _ => (0, 0)
  outer_ccbs := outer_ccbs
  inner_ccbs := fun _ _ => []
  isolated_vertices := isolated_vertices
  random_shuffle_xcvs := fun g l => (l.reverse, g + 1)
  random_shuffle_pts := fun g l => (l.reverse, g + 1)
  random_shuffle_xcvs_perm := fun _ l => List.reverse_perm l
  random_shuffle_pts_perm := fun _ l => List.reverse_perm l

/-- The world of horizontal lines in which reading the curve of an edge of the
frame yields the line `y = top`. -/
def prims_top (top : Nat) : Prims Pt Nat Vtx Hedge Fc Arr Nat :=
  { prims with
    curve := fun _ h =>
      match h with
      | .line y _ => y
      | _ => top }

/-- The state of `Construct_single_cell_2` in the world of horizontal lines. -/
abbrev Single_cell := Construct_single_cell_2 Pt Nat (List Nat) Vtx Hedge Fc Arr

/-- A freshly constructed instance over classified curves and points. -/
def fresh (xcvs : List Nat) (pts : List Pt) : Single_cell :=
  { (Construct_single_cell_2.blank : Single_cell) with
    _m_objects := Construct_single_cell_2.half_objects xcvs pts,
    _m_xcvs := xcvs, _m_pts := pts }

end Lines

/-!
The member function `Sphere_3::orthogonal_transform` (`Sphere_3.h`)

The kernel objects are reduced to the members the function uses: a point and a
vector are triples of coordinates over the number type `FT`, a sphere is its
center, squared radius and orientation, and an affine transformation is its
action on points, its action on vectors and its parity.
-/

namespace CGAL

/-- The type `CGAL::Orientation`; `CLOCKWISE` is `NEGATIVE`, `COUNTERCLOCKWISE`
is `POSITIVE`. -/
inductive Orientation where
  | NEGATIVE
  | ZERO
  | POSITIVE
  deriving DecidableEq

/-- The function `CGAL::opposite` on orientations. -/
def opposite : Orientation → Orientation
  | .NEGATIVE => .POSITIVE
  | .ZERO => .ZERO
  | .POSITIVE => .NEGATIVE

/-- A point of the kernel, by its Cartesian coordinates. -/
structure Point_3 (FT : Type) where
  x : FT
  y : FT
  z : FT
  deriving DecidableEq

/-- A vector of the kernel, by its Cartesian coordinates. -/
structure Vector_3 (FT : Type) where
  x : FT
  y : FT
  z : FT
  deriving DecidableEq

/-- The member function `Vector_3::squared_length()`. -/
def Vector_3.squared_length {FT : Type} [CommRing FT] (v : Vector_3 FT) : FT :=
  v.x * v.x + v.y * v.y + v.z * v.z

/-- The members of `Aff_transformation_3` that `orthogonal_transform` calls:
`transform` on a point, `transform` on a vector (the linear part), and
`is_even()`. -/
structure Aff_transformation_3 (FT : Type) where
  transform_point : Point_3 FT → Point_3 FT
  transform_vector : Vector_3 FT → Vector_3 FT
  is_even : Bool

/-- The identity transformation. -/
def Aff_transformation_3.identity {FT : Type} : Aff_transformation_3 FT :=
  ⟨fun p => p, fun v => v, true⟩

/-- A sphere as `Sphere_3(center, squared_radius, orientation)` builds it. -/
structure Sphere_3 (FT : Type) where
  center : Point_3 FT
  squared_radius : FT
  orientation : Orientation
  deriving DecidableEq

/-- The member function `Sphere_3::orthogonal_transform(t)`. -/
def Sphere_3.orthogonal_transform {FT : Type} [CommRing FT] (s : Sphere_3 FT)
    (t : Aff_transformation_3 FT) : Sphere_3 FT :=
  let vec : Vector_3 FT := ⟨1, 0, 0⟩
  let vec := t.transform_vector vec
  let sq_scale := vec.squared_length
  ⟨t.transform_point s.center, sq_scale * s.squared_radius,
    if t.is_even then s.orientation else opposite s.orientation⟩

end CGAL


/-!
The input classifier
-/

namespace CGAL.Construct_single_cell_2

variable {P X C V H F A G : Type}

theorem push_pieces_ok (s : Construct_single_cell_2 P X C V H F A)
    (l : List (Input_object P X C)) (h : l.all is_piece = true) :
    push_pieces s l =
      .ok { s with _m_xcvs := s._m_xcvs ++ l.filterMap as_xcurve,
                   _m_pts := s._m_pts ++ l.filterMap as_point } := by
  induction l generalizing s with
  | nil => simp [push_pieces]
  | cons o rest ih =>
    simp only [List.all_cons, Bool.and_eq_true] at h
    cases o with
    | xcurve x =>
      rw [push_pieces, ih _ h.2]
      simp [as_xcurve, as_point, List.filterMap_cons]
    | point p =>
      rw [push_pieces, ih _ h.2]
      simp [as_xcurve, as_point, List.filterMap_cons]
    | curve c => simp [is_piece] at h
    | other => simp [is_piece] at h

theorem push_object_ok (K : Kernel P X C) (s : Construct_single_cell_2 P X C V H F A)
    (o : Input_object P X C) (h : well_formed K o = true) :
    push_object K s o =
      .ok { s with _m_objects := s._m_objects ++ [o],
                   _m_xcvs := s._m_xcvs ++ spec_curves K o,
                   _m_pts := s._m_pts ++ spec_points K o } := by
  cases o with
  | xcurve x => simp [push_object, spec_curves, spec_points]
  | point p => simp [push_object, spec_curves, spec_points]
  | curve c =>
    simp only [well_formed] at h
    simp only [push_object]
    rw [push_pieces_ok _ _ h]
    simp [spec_curves, spec_points]
  | other => simp [well_formed] at h

theorem push_objects_ok (K : Kernel P X C) (s : Construct_single_cell_2 P X C V H F A)
    (objects : List (Input_object P X C)) (h : ∀ o ∈ objects, well_formed K o = true) :
    push_objects K s objects =
      .ok { s with _m_objects := s._m_objects ++ objects,
                   _m_xcvs := s._m_xcvs ++ objects.flatMap (spec_curves K),
                   _m_pts := s._m_pts ++ objects.flatMap (spec_points K) } := by
  induction objects generalizing s with
  | nil => simp [push_objects]
  | cons o rest ih =>
    have ho := h o (List.mem_cons_self _ _)
    have hrest : ∀ o1 ∈ rest, well_formed K o1 = true :=
      fun o1 h1 => h o1 (List.mem_cons_of_mem _ h1)
    rw [push_objects, push_object_ok K s o ho]
    simp only
    rw [ih _ hrest]
    simp [List.flatMap_cons, List.append_assoc]

theorem contributes_one (K : Kernel P X C) (objects : List (Input_object P X C))
    (h : ∀ o ∈ objects, well_formed K o = true)
    (hc : ∀ o ∈ objects, is_general_curve o = false) :
    (objects.flatMap (spec_curves K)).length + (objects.flatMap (spec_points K)).length
      = objects.length := by
  induction objects with
  | nil => simp
  | cons o rest ih =>
    have ho := h o (List.mem_cons_self _ _)
    have hco := hc o (List.mem_cons_self _ _)
    have ih1 := ih (fun o1 h1 => h o1 (List.mem_cons_of_mem _ h1))
      (fun o1 h1 => hc o1 (List.mem_cons_of_mem _ h1))
    cases o with
    | xcurve x => simp [List.flatMap_cons, spec_curves, spec_points] at ih1 ⊢; omega
    | point p => simp [List.flatMap_cons, spec_curves, spec_points] at ih1 ⊢; omega
    | curve c => simp [is_general_curve] at hco
    | other => simp [well_formed] at ho

/-- C2: on a range of points, x-monotone curves and general curves (whose
decompositions hold x-monotone curves and points only) the constructor
succeeds; its curve sequence is the concatenation, in input order, of the
curves each object contributes, its point sequence the concatenation of the
points each object contributes, nothing is dropped or merged, and without
general curves the two sequences together are as long as the input. -/
theorem init_classifies (K : Kernel P X C) (objects : List (Input_object P X C))
    (h : ∀ o ∈ objects, well_formed K o = true) :
    ∃ s : Construct_single_cell_2 P X C V H F A,
      init K objects = .ok s ∧
      s._m_xcvs = objects.flatMap (spec_curves K) ∧
      s._m_pts = objects.flatMap (spec_points K) ∧
      s._m_objects = objects ∧
      ((∀ o ∈ objects, is_general_curve o = false) →
        s._m_xcvs.length + s._m_pts.length = objects.length) := by
  refine ⟨_, push_objects_ok K blank objects h, ?_, ?_, ?_, ?_⟩
  · simp [blank]
  · simp [blank]
  · simp [blank]
  · intro hc
    simpa [blank] using contributes_one K objects h hc

/-- C2 at a concrete range of the world of horizontal lines, with a repeated
curve and a general curve of two pieces. -/
theorem init_classifies_witness :
    (∀ o ∈ [Input_object.xcurve 5, .curve [1, 2], .point (0, 0), .xcurve 5],
        well_formed Lines.kernel o = true) ∧
    ∃ s : Lines.Single_cell,
      init Lines.kernel [Input_object.xcurve 5, .curve [1, 2], .point (0, 0), .xcurve 5]
        = .ok s ∧
      s._m_xcvs = [5, 1, 2, 5] ∧ s._m_pts = [(0, 0)] :=
  ⟨by decide, by
    obtain ⟨s, h1, h2, h3, _, _⟩ := init_classifies (V := Lines.Vtx) (H := Lines.Hedge)
      (F := Lines.Fc) (A := Lines.Arr) Lines.kernel
      [Input_object.xcurve 5, .curve [1, 2], .point (0, 0), .xcurve 5] (by decide)
    exact ⟨s, h1, by rw [h2]; rfl, by rw [h3]; rfl⟩⟩

theorem push_pieces_error (s : Construct_single_cell_2 P X C V H F A)
    (l : List (Input_object P X C)) (e : Failure) (h : push_pieces s l = .error e) :
    e = .assertion_failed := by
  induction l generalizing s with
  | nil => simp [push_pieces] at h
  | cons o rest ih =>
    cases o with
    | xcurve x => rw [push_pieces] at h; exact ih _ h
    | point p => rw [push_pieces] at h; exact ih _ h
    | curve c => simp [push_pieces] at h; exact h.symm
    | other => simp [push_pieces] at h; exact h.symm

theorem push_object_error (K : Kernel P X C) (s : Construct_single_cell_2 P X C V H F A)
    (o : Input_object P X C) (e : Failure) (h : push_object K s o = .error e) :
    e = .assertion_failed := by
  cases o with
  | xcurve x => simp [push_object] at h
  | point p => simp [push_object] at h
  | curve c => exact push_pieces_error _ _ e h
  | other => simp [push_object] at h; exact h.symm

theorem push_objects_other (K : Kernel P X C) (s : Construct_single_cell_2 P X C V H F A)
    (objects : List (Input_object P X C)) (h : Input_object.other ∈ objects) :
    push_objects K s objects = .error .assertion_failed := by
  induction objects generalizing s with
  | nil => simp at h
  | cons o rest ih =>
    rw [push_objects]
    cases hpo : push_object K s o with
    | error e =>
      simp only
      rw [push_object_error K s o e hpo]
    | ok s1 =>
      simp only
      rcases List.mem_cons.1 h with h1 | h1
      · subst h1
        simp [push_object] at hpo
      · exact ih s1 h1

/-- C3: when the input range holds an object that is neither a point, nor an
x-monotone curve, nor a general curve, the constructor ends in a failed
assertion and no classified instance exists. -/
theorem init_rejects_other (K : Kernel P X C) (objects : List (Input_object P X C))
    (h : Input_object.other ∈ objects) :
    (init K objects : Except Failure (Construct_single_cell_2 P X C V H F A))
      = .error .assertion_failed :=
  push_objects_other K blank objects h

/-- C3 at a concrete range: a point, then an object of a foreign type. -/
theorem init_rejects_other_witness :
    Input_object.other ∈
      [Input_object.point (0, 0), (Input_object.other : Input_object Lines.Pt Nat (List Nat))] ∧
    (init Lines.kernel [Input_object.point (0, 0), .other] : Except Failure Lines.Single_cell)
      = .error .assertion_failed :=
  ⟨by decide, init_rejects_other Lines.kernel _ (by decide)⟩

end CGAL.Construct_single_cell_2

/-!
Cached results
-/

namespace CGAL.Construct_single_cell_2

variable {P X C V H F A G : Type}

/-- C4: on an instance whose point-location slot is empty, `cell_pl(pt)`
returns the result of locating `pt` in the arrangement that one call of
`insert_empty` builds from all classified curves and all classified points in
an empty arrangement, and afterwards the slot holds that handle and
`_m_full_arr` that arrangement. -/
theorem cell_pl_fresh (Pr : Prims P X V H F A G) (s : Construct_single_cell_2 P X C V H F A)
    (pt : P) (h : s._m_cell_handle_pl = none) :
    (cell_pl Pr s pt).2 = Pr.locate (Pr.insert_empty Pr.empty_arr s._m_xcvs s._m_pts) pt ∧
    (cell_pl Pr s pt).1._m_cell_handle_pl =
      some (Pr.locate (Pr.insert_empty Pr.empty_arr s._m_xcvs s._m_pts) pt) ∧
    (cell_pl Pr s pt).1._m_full_arr = some (Pr.insert_empty Pr.empty_arr s._m_xcvs s._m_pts) := by
  simp [cell_pl, h]

/-- C4 on a fresh instance over two lines and one point. -/
theorem cell_pl_fresh_witness :
    (Lines.fresh [5, 3] [(1, 1)])._m_cell_handle_pl = none ∧
    (cell_pl Lines.prims (Lines.fresh [5, 3] [(1, 1)]) (0, 4)).2
      = .face (.below (some 5)) ∧
    (cell_pl Lines.prims (Lines.fresh [5, 3] [(1, 1)]) (0, 4)).1._m_cell_handle_pl
      = some (.face (.below (some 5))) :=
  ⟨rfl, (cell_pl_fresh Lines.prims (Lines.fresh [5, 3] [(1, 1)]) (0, 4) rfl).1.trans (by decide),
    (cell_pl_fresh Lines.prims (Lines.fresh [5, 3] [(1, 1)]) (0, 4) rfl).2.1.trans (by decide)⟩

theorem cell_pl_cached (Pr : Prims P X V H F A G) (s : Construct_single_cell_2 P X C V H F A)
    (pt : P) (ch : Cell_object V H F) (h : s._m_cell_handle_pl = some ch) :
    cell_pl Pr s pt = (s, ch) := by
  simp [cell_pl, h]

theorem cell_pl_slot (Pr : Prims P X V H F A G) (s : Construct_single_cell_2 P X C V H F A)
    (pt : P) : (cell_pl Pr s pt).1._m_cell_handle_pl = some (cell_pl Pr s pt).2 := by
  unfold cell_pl
  split
  · assumption
  · rfl

theorem cell_ri_cached [DecidableEq X] [DecidableEq V] (K : Kernel P X C) (Pr : Prims P X V H F A G)
    (s : Construct_single_cell_2 P X C V H F A) (g : G) (pt : P) (ch : Cell_object V H F)
    (h : s._m_cell_handle_ri = some ch) : cell_ri K Pr s g pt = .ok (s, g, ch) := by
  simp [cell_ri, h]

theorem cell_ri_slot [DecidableEq X] [DecidableEq V] (K : Kernel P X C) (Pr : Prims P X V H F A G)
    (s s1 : Construct_single_cell_2 P X C V H F A) (g g1 : G) (pt : P) (ch : Cell_object V H F)
    (h : cell_ri K Pr s g pt = .ok (s1, g1, ch)) : s1._m_cell_handle_ri = some ch := by
  unfold cell_ri at h
  split at h
  · rename_i c0 hs
    simp only [Except.ok.injEq, Prod.mk.injEq] at h
    obtain ⟨rfl, -, rfl⟩ := h
    exact hs
  · dsimp only at h
    split at h
    · split at h
      · cases h
      · split at h
        · cases h
        · simp only [Except.ok.injEq, Prod.mk.injEq] at h
          obtain ⟨rfl, -, rfl⟩ := h
          rfl
    · simp only [Except.ok.injEq, Prod.mk.injEq] at h
      obtain ⟨rfl, -, rfl⟩ := h
      rfl

theorem cell_rbo_naive_fuel_cached [DecidableEq X] (K : Kernel P X C) (Pr : Prims P X V H F A G) (fuel : Nat)
    (s : Construct_single_cell_2 P X C V H F A) (g : G) (pt : P) (ch : Cell_object V H F)
    (h : s._m_cell_handle_rbo = some ch) :
    cell_rbo_naive_fuel K Pr (fuel + 1) s g pt = .ok (s, g, ch) := by
  simp [cell_rbo_naive_fuel, h]

theorem cell_rbo_naive_fuel_slot [DecidableEq X] (K : Kernel P X C) (Pr : Prims P X V H F A G) (fuel : Nat)
    (s s1 : Construct_single_cell_2 P X C V H F A) (g g1 : G) (pt : P) (ch : Cell_object V H F)
    (h : cell_rbo_naive_fuel K Pr fuel s g pt = .ok (s1, g1, ch)) :
    s1._m_cell_handle_rbo = some ch := by
  cases fuel with
  | zero => simp [cell_rbo_naive_fuel] at h
  | succ n =>
    unfold cell_rbo_naive_fuel at h
    split at h
    · rename_i c0 hs
      simp only [Except.ok.injEq, Prod.mk.injEq] at h
      obtain ⟨rfl, -, rfl⟩ := h
      exact hs
    · split at h
      · simp only [Except.ok.injEq, Prod.mk.injEq] at h
        obtain ⟨rfl, -, rfl⟩ := h
        rfl
      · simp only at h
        repeat' split at h
        all_goals first
          | (simp only [Except.ok.injEq, Prod.mk.injEq] at h
             obtain ⟨rfl, -, rfl⟩ := h
             rfl)
          | cases h

/-- C5: for each of `cell_pl`, `cell_ri` and `cell_rbo_naive`, a call with `q`
that follows a call with `p` on the same instance returns the handle of the
first call and leaves every member as the first call left it; and a call on an
instance whose slot is filled returns the slot and changes no member. -/
theorem cached_handle_is_final [DecidableEq X] [DecidableEq V] (K : Kernel P X C) (Pr : Prims P X V H F A G)
    (s : Construct_single_cell_2 P X C V H F A) (g : G) (p q : P) :
    cell_pl Pr (cell_pl Pr s p).1 q = cell_pl Pr s p ∧
    (∀ s1 g1 ch, cell_ri K Pr s g p = .ok (s1, g1, ch) →
      cell_ri K Pr s1 g1 q = .ok (s1, g1, ch)) ∧
    (∀ s1 g1 ch, cell_rbo_naive K Pr s g p = .ok (s1, g1, ch) →
      cell_rbo_naive K Pr s1 g1 q = .ok (s1, g1, ch)) ∧
    (∀ ch, s._m_cell_handle_pl = some ch → cell_pl Pr s q = (s, ch)) ∧
    (∀ ch, s._m_cell_handle_ri = some ch → cell_ri K Pr s g q = .ok (s, g, ch)) ∧
    (∀ ch, s._m_cell_handle_rbo = some ch → cell_rbo_naive K Pr s g q = .ok (s, g, ch)) := by
  refine ⟨?_, ?_, ?_, ?_, ?_, ?_⟩
  · exact cell_pl_cached Pr _ q _ (cell_pl_slot Pr s p)
  · intro s1 g1 ch h
    exact cell_ri_cached K Pr s1 g1 q ch (cell_ri_slot K Pr s s1 g g1 p ch h)
  · intro s1 g1 ch h
    exact cell_rbo_naive_fuel_cached K Pr _ s1 g1 q ch
      (cell_rbo_naive_fuel_slot K Pr _ s s1 g g1 p ch h)
  · exact fun ch h => cell_pl_cached Pr s q ch h
  · exact fun ch h => cell_ri_cached K Pr s g q ch h
  · exact fun ch h => cell_rbo_naive_fuel_cached K Pr _ s g q ch h

/-- C5 on a fresh instance over five lines and one point, queried under the
line `y = 7` and then above all lines: all three strategies answer the second
query with the handle of the first. -/
theorem cached_handle_is_final_witness :
    (cell_pl Lines.prims (cell_pl Lines.prims (Lines.fresh [5, 1, 2, 7, 9] [(0, 0)]) (0, 6)).1
        (0, 10)).2 = .face (.below (some 7)) ∧
    (∃ s1 g1 ch,
      cell_ri Lines.kernel Lines.prims (Lines.fresh [5, 1, 2, 7, 9] [(0, 0)]) 0 (0, 6)
        = .ok (s1, g1, ch) ∧
      cell_ri Lines.kernel Lines.prims s1 g1 (0, 10) = .ok (s1, g1, ch)) ∧
    (∃ s1 g1,
      cell_rbo_naive Lines.kernel Lines.prims (Lines.fresh [5, 1, 2, 7, 9] [(0, 0)]) 0 (0, 6)
        = .ok (s1, g1, .face (.below (some 7))) ∧
      cell_rbo_naive Lines.kernel Lines.prims s1 g1 (0, 10)
        = .ok (s1, g1, .face (.below (some 7)))) :=
  have h := cached_handle_is_final Lines.kernel Lines.prims
    (Lines.fresh [5, 1, 2, 7, 9] [(0, 0)]) 0 (0, 6) (0, 10)
  ⟨by rw [h.1]; decide,
   ⟨_, _, _, rfl, h.2.1 _ _ _ rfl⟩,
   ⟨_, _, rfl, h.2.2.1 _ _ _ rfl⟩⟩

end CGAL.Construct_single_cell_2

/-!
The cell materializer
-/

namespace CGAL.Construct_single_cell_2

variable {P X C V H F A G : Type}

theorem foldl_add_curve [DecidableEq X] (Pr : Prims P X V H F A G) (a : A) (hes : List H)
    (acc : List X) :
    hes.foldl (add_curve Pr a) acc =
      ((hes.filter (fun he => !Pr.is_fictitious a he)).map (Pr.curve a)).foldl
        push_back_new acc := by
  induction hes generalizing acc with
  | nil => rfl
  | cons he rest ih =>
    rw [List.foldl_cons, ih]
    by_cases hf : Pr.is_fictitious a he = true
    · simp [add_curve, hf, List.filter_cons]
    · simp [add_curve, hf, List.filter_cons, push_back_new]

theorem walk_ccbs_eq [DecidableEq X] (Pr : Prims P X V H F A G) (a : A) (cs : List (Ccb H))
    (acc : List X) :
    walk_ccbs Pr a acc cs = (cs.flatMap Ccb.halfedges).foldl (add_curve Pr a) acc := by
  induction cs generalizing acc with
  | nil => rfl
  | cons c rest ih =>
    rw [walk_ccbs, List.foldl_cons, List.flatMap_cons, List.foldl_append]
    exact ih _

theorem face_xcvs_eq [DecidableEq X] (Pr : Prims P X V H F A G) (a : A) (fh : F) :
    face_xcvs Pr a fh = (boundary_curves Pr a fh).foldl push_back_new [] := by
  rw [face_xcvs, walk_ccbs_eq, walk_ccbs_eq, ← List.foldl_append, ← List.flatMap_append,
    foldl_add_curve]
  rfl

theorem first_occurrences [DecidableEq X] (l : List X) :
    (l.foldl push_back_new []).Nodup ∧
    (∀ cv, cv ∈ l.foldl push_back_new [] ↔ cv ∈ l) ∧
    (l.foldl push_back_new []).Pairwise (fun c1 c2 => l.indexOf c1 < l.indexOf c2) := by
  induction l using List.reverseRecOn with
  | nil => simp
  | append_singleton l c ih =>
    obtain ⟨hnd, hmem, hpw⟩ := ih
    have hpw1 : (l.foldl push_back_new []).Pairwise
        (fun c1 c2 => (l ++ [c]).indexOf c1 < (l ++ [c]).indexOf c2) := by
      refine hpw.imp_of_mem ?_
      intro c1 c2 h1 h2 hlt
      rw [List.indexOf_append_of_mem ((hmem c1).1 h1),
        List.indexOf_append_of_mem ((hmem c2).1 h2)]
      exact hlt
    rw [List.foldl_append, List.foldl_cons, List.foldl_nil]
    by_cases hc : c ∈ l.foldl push_back_new []
    · rw [show push_back_new (l.foldl push_back_new []) c = l.foldl push_back_new [] from
        if_pos hc]
      refine ⟨hnd, ?_, hpw1⟩
      intro cv
      rw [hmem cv, List.mem_append, List.mem_singleton]
      constructor
      · exact fun h => Or.inl h
      · rintro (h | h)
        · exact h
        · rw [h]; exact (hmem c).1 hc
    · rw [show push_back_new (l.foldl push_back_new []) c = l.foldl push_back_new [] ++ [c] from
        if_neg hc]
      have hcl : c ∉ l := fun h => hc ((hmem c).2 h)
      refine ⟨?_, ?_, ?_⟩
      · rw [List.nodup_append]
        refine ⟨hnd, List.nodup_singleton c, ?_⟩
        intro x hx hx1
        rw [List.mem_singleton] at hx1
        exact hc (hx1 ▸ hx)
      · intro cv
        simp only [List.mem_append, List.mem_singleton, hmem cv]
      · rw [List.pairwise_append]
        refine ⟨hpw1, List.pairwise_singleton _ _, ?_⟩
        intro c1 h1 c2 h2
        rw [List.mem_singleton] at h2
        subst h2
        have h1l : c1 ∈ l := (hmem c1).1 h1
        rw [List.indexOf_append_of_mem h1l, List.indexOf_append_of_not_mem hcl]
        have := List.indexOf_lt_length.2 h1l
        omega

/-- C6: for a face handle the curve list that `cell_arr` collects holds no two
equal curves; a curve is in it exactly when a boundary halfedge of the face
(on an outer or an inner cycle) that is not fictitious carries it; and its
entries stand in the order of their first occurrences along the walk, outer
cycles before inner ones. -/
theorem cell_arr_face_curves [DecidableEq X] (Pr : Prims P X V H F A G) (a : A) (fh : F) :
    ∃ cell_xcvs cell_pts, cell_lists Pr a (.face fh) = .ok (cell_xcvs, cell_pts) ∧
      cell_xcvs.Nodup ∧
      (∀ cv, cv ∈ cell_xcvs ↔
        ∃ he ∈ boundary_halfedges Pr a fh, Pr.is_fictitious a he = false ∧ Pr.curve a he = cv) ∧
      cell_xcvs.Pairwise (fun c1 c2 =>
        (boundary_curves Pr a fh).indexOf c1 < (boundary_curves Pr a fh).indexOf c2) := by
  refine ⟨face_xcvs Pr a fh, face_pts Pr a fh, rfl, ?_, ?_, ?_⟩
  · rw [face_xcvs_eq]
    exact (first_occurrences _).1
  · intro cv
    rw [face_xcvs_eq, (first_occurrences _).2.1 cv]
    simp [boundary_curves, and_assoc]
  · rw [face_xcvs_eq]
    exact (first_occurrences _).2.2

theorem foldl_push_back (f : V → P) (l : List V) (acc : List P) :
    l.foldl (fun cell_pts vt => cell_pts ++ [f vt]) acc = acc ++ l.map f := by
  induction l generalizing acc with
  | nil => simp
  | cons v rest ih => rw [List.foldl_cons, ih]; simp

/-- C7: for a face handle the point list that `cell_arr` collects is the list
of the points of the isolated vertices of the face, in the order of their
enumeration, one entry per isolated vertex. -/
theorem cell_arr_face_points [DecidableEq X] (Pr : Prims P X V H F A G) (a : A) (fh : F) :
    ∃ cell_xcvs, cell_lists Pr a (.face fh) =
      .ok (cell_xcvs, (Pr.isolated_vertices a fh).map (Pr.point a)) := by
  refine ⟨face_xcvs Pr a fh, ?_⟩
  simp [cell_lists, face_pts, foldl_push_back]

/-- C8: for a vertex handle `cell_arr` fills the target by
`non_intersecting_insert_empty` with no curve and the point of the vertex; for
a halfedge handle, with the curve of the halfedge and no point. -/
theorem cell_arr_vertex_halfedge [DecidableEq X] (Pr : Prims P X V H F A G)
    (s : Construct_single_cell_2 P X C V H F A) (a cell : A) :
    (∀ vh, (cell_arr Pr s a (.vertex vh) cell).map Prod.snd =
      .ok (Pr.non_intersecting_insert_empty cell [] [Pr.point a vh])) ∧
    (∀ heh, (cell_arr Pr s a (.halfedge heh) cell).map Prod.snd =
      .ok (Pr.non_intersecting_insert_empty cell [Pr.curve a heh] [])) :=
  ⟨fun _ => rfl, fun _ => rfl⟩

/-- C9: for a cell handle that wraps neither a vertex, nor a halfedge, nor a
face, `cell_arr` ends in a failed assertion; no target arrangement results. -/
theorem cell_arr_invalid [DecidableEq X] (Pr : Prims P X V H F A G)
    (s : Construct_single_cell_2 P X C V H F A) (a cell : A) (cell_handle : Cell_object V H F)
    (hv : ∀ vh, cell_handle ≠ .vertex vh) (hh : ∀ heh, cell_handle ≠ .halfedge heh)
    (hf : ∀ fh, cell_handle ≠ .face fh) :
    cell_arr Pr s a cell_handle cell = .error .assertion_failed := by
  cases cell_handle with
  | vertex vh => exact absurd rfl (hv vh)
  | halfedge heh => exact absurd rfl (hh heh)
  | face fh => exact absurd rfl (hf fh)
  | empty => rfl

/-- C9 at the empty object, for a fresh instance over one line. -/
theorem cell_arr_invalid_witness :
    cell_arr Lines.prims (Lines.fresh [5] []) ⟨[5], []⟩ Cell_object.empty ⟨[], []⟩
      = .error .assertion_failed :=
  cell_arr_invalid Lines.prims (Lines.fresh [5] []) ⟨[5], []⟩ ⟨[], []⟩ Cell_object.empty
    (fun _ h => by cases h) (fun _ h => by cases h) (fun _ h => by cases h)

/-- C10: for a cell handle that wraps a vertex, a halfedge or a face,
`cell_arr` returns, and of the members only the timer `_mt_cell` differs after
the call: the classified curves and points, the three result slots and the
three scratch arrangements are as before. -/
theorem cell_arr_frame [DecidableEq X] (Pr : Prims P X V H F A G)
    (s : Construct_single_cell_2 P X C V H F A) (a cell : A) (cell_handle : Cell_object V H F)
    (hvalid : cell_handle ≠ .empty) :
    ∃ s1 cell1, cell_arr Pr s a cell_handle cell = .ok (s1, cell1) ∧
      s1._m_xcvs = s._m_xcvs ∧ s1._m_pts = s._m_pts ∧
      s1._m_cell_handle_pl = s._m_cell_handle_pl ∧
      s1._m_cell_handle_ri = s._m_cell_handle_ri ∧
      s1._m_cell_handle_rbo = s._m_cell_handle_rbo ∧
      s1._m_full_arr = s._m_full_arr ∧ s1._m_arr_city = s._m_arr_city ∧
      s1._m_arr_purple = s._m_arr_purple ∧
      s1 = { s with _mt_cell := s1._mt_cell } := by
  cases cell_handle with
  | vertex vh => exact ⟨_, _, rfl, rfl, rfl, rfl, rfl, rfl, rfl, rfl, rfl, rfl⟩
  | halfedge heh => exact ⟨_, _, rfl, rfl, rfl, rfl, rfl, rfl, rfl, rfl, rfl, rfl⟩
  | face fh => exact ⟨_, _, rfl, rfl, rfl, rfl, rfl, rfl, rfl, rfl, rfl, rfl⟩
  | empty => exact absurd rfl hvalid

/-- C10 at the face under the line `y = 5` of the arrangement of the lines
`y = 5` and `y = 3` with the isolated point `(1, 4)`: the target receives the
two bounding lines and the point, the members keep their values. -/
theorem cell_arr_frame_witness :
    ∃ s1, cell_arr Lines.prims (Lines.fresh [5, 3] [(1, 4)]) ⟨[5, 3], [(1, 4)]⟩
        (.face (.below (some 5))) ⟨[], []⟩ = .ok (s1, ⟨[5, 3], [(1, 4)]⟩) ∧
      s1._m_xcvs = [5, 3] ∧ s1._m_pts = [(1, 4)] ∧ s1._m_cell_handle_pl = none := by
  obtain ⟨s1, cell1, h, hx, hp, hpl, -⟩ :=
    cell_arr_frame Lines.prims (Lines.fresh [5, 3] [(1, 4)]) ⟨[5, 3], [(1, 4)]⟩ ⟨[], []⟩
      (.face (.below (some 5))) (fun h => by cases h)
  have hc : cell1 = ⟨[5, 3], [(1, 4)]⟩ := by
    have h2 : cell_arr Lines.prims (Lines.fresh [5, 3] [(1, 4)]) ⟨[5, 3], [(1, 4)]⟩
        (.face (.below (some 5))) ⟨[], []⟩ = .ok (_, ⟨[5, 3], [(1, 4)]⟩) := rfl
    rw [h] at h2
    simp only [Except.ok.injEq, Prod.mk.injEq] at h2
    exact h2.2
  exact ⟨s1, hc ▸ h, hx, hp, hpl⟩

end CGAL.Construct_single_cell_2

/-!
The incremental strategy and the query point
-/

namespace CGAL.RI_observer

variable {P X C V H F A G : Type}

theorem notify_cell_handle (K : Kernel P X C) (Pr : Prims P X V H F A G) (arr : A)
    (o : RI_observer P V H F) (n : Notification X V H F) :
    (o.notify K Pr arr n)._m_cell_handle = o._m_cell_handle := by
  cases n with
  | before_split_face f e =>
    simp only [notify, before_split_face]
    repeat' split
    all_goals rfl
  | after_split_face f new_f is_hole => rfl
  | before_split_edge e v c1 c2 => rfl
  | after_split_edge e1 e2 => rfl
  | before_split_fictitious_edge e v => rfl
  | after_split_fictitious_edge e1 e2 => rfl

theorem notify_all_cell_handle (K : Kernel P X C) (Pr : Prims P X V H F A G)
    (trace : List (A × Notification X V H F)) (o : RI_observer P V H F) :
    (o.notify_all K Pr trace)._m_cell_handle = o._m_cell_handle := by
  induction trace generalizing o with
  | nil => rfl
  | cons n rest ih =>
    rw [notify_all, List.foldl_cons]
    exact (ih _).trans (notify_cell_handle K Pr n.1 o n.2)

theorem init_query [DecidableEq V] (Pr : Prims P X V H F A G) (arr : A) (p q : P) :
    init Pr arr q = (init Pr arr p).map (fun o => { o with _m_point := q }) := by
  unfold init
  dsimp only
  split
  · split
    · rfl
    · rfl
  · rfl

end CGAL.RI_observer

namespace CGAL.Construct_single_cell_2

variable {P X C V H F A G : Type}

theorem ri_loop_observer [DecidableEq X] (K : Kernel P X C) (Pr : Prims P X V H F A G)
    (l : List X) (s : Construct_single_cell_2 P X C V H F A) (city : A)
    (obs obs1 : RI_observer P V H F) (cell_handle : Cell_object V H F)
    (h : obs._m_cell_handle = obs1._m_cell_handle) :
    (ri_loop K Pr s city obs cell_handle l).map (fun r => (r.1, r.2.1, r.2.2.2)) =
      (ri_loop K Pr s city obs1 cell_handle l).map (fun r => (r.1, r.2.1, r.2.2.2)) := by
  induction l generalizing s city obs obs1 cell_handle with
  | nil => rfl
  | cons cv rest ih =>
    have hn : (obs.notify_all K Pr (Pr.insert city cv).1).cell_handle =
        (obs1.notify_all K Pr (Pr.insert city cv).1).cell_handle := by
      simp only [RI_observer.cell_handle, RI_observer.notify_all_cell_handle, h]
    simp only [ri_loop]
    rw [hn]
    split
    · rfl
    · exact ih _ _ _ _ _ (by
        simp only [RI_observer.notify_all_cell_handle, h])

/-- C1: on an instance whose slot is empty, `cell_ri` returns the same handle
and leaves the same members for any two query points that point location in
the points-only arrangement places in a face, whatever the classified curves
are; the handle it returns does not follow the query point. -/
theorem cell_ri_ignores_query_point [DecidableEq X] [DecidableEq V] (K : Kernel P X C)
    (Pr : Prims P X V H F A G) (s : Construct_single_cell_2 P X C V H F A) (g : G) (p q : P)
    (fp fq : F) (hslot : s._m_cell_handle_ri = none)
    (hp : Pr.locate (Pr.non_intersecting_insert_empty Pr.empty_arr [] s._m_pts) p = .face fp)
    (hq : Pr.locate (Pr.non_intersecting_insert_empty Pr.empty_arr [] s._m_pts) q = .face fq) :
    cell_ri K Pr s g p = cell_ri K Pr s g q := by
  simp only [cell_ri, hslot, hp, hq]
  rw [RI_observer.init_query Pr _ p q]
  cases hi : RI_observer.init Pr (Pr.non_intersecting_insert_empty Pr.empty_arr [] s._m_pts) p with
  | error e => rfl
  | ok obs =>
    simp only [Except.map]
    generalize h1 : ri_loop K Pr _ _ obs _ _ = r1
    generalize h2 : ri_loop K Pr _ _ { obs with _m_point := q } _ _ = r2
    have hl : r1.map (fun r => (r.1, r.2.1, r.2.2.2)) =
        r2.map (fun r => (r.1, r.2.1, r.2.2.2)) := by
      rw [← h1, ← h2]
      exact ri_loop_observer K Pr _ _ _ _ _ _ rfl
    clear h1 h2
    cases r1 with
    | error e1 =>
      cases r2 with
      | error e2 => simp only [Except.map, Except.error.injEq] at hl; rw [hl]
      | ok v2 => simp [Except.map] at hl
    | ok v1 =>
      cases r2 with
      | error e2 => simp [Except.map] at hl
      | ok v2 =>
        obtain ⟨a1, b1, c1, d1⟩ := v1
        obtain ⟨a2, b2, c2, d2⟩ := v2
        simp only [Except.map, Except.ok.injEq, Prod.mk.injEq] at hl
        obtain ⟨rfl, rfl, rfl⟩ := hl
        rfl

/-- C1 in the world of horizontal lines, for the single curve `y = 5` and the
query points `(0, 2)` under it and `(0, 7)` above it, neither on the curve:
`cell_ri` returns for both the face above the line, while `cell_pl` returns the
face under the line for the first and the face above it for the second. -/
theorem cell_ri_ignores_query_point_witness :
    cell_ri Lines.kernel Lines.prims (Lines.fresh [5] []) 0 (0, 2)
      = cell_ri Lines.kernel Lines.prims (Lines.fresh [5] []) 0 (0, 7) ∧
    (cell_ri Lines.kernel Lines.prims (Lines.fresh [5] []) 0 (0, 2)).map (fun r => r.2.2)
      = .ok (.face (.below none)) ∧
    (cell_pl Lines.prims (Lines.fresh [5] []) (0, 2)).2 = .face (.below (some 5)) ∧
    (cell_pl Lines.prims (Lines.fresh [5] []) (0, 7)).2 = .face (.below none) :=
  ⟨cell_ri_ignores_query_point Lines.kernel Lines.prims (Lines.fresh [5] []) 0 (0, 2) (0, 7)
      (.below none) (.below none) rfl rfl rfl,
    rfl, by decide, by decide⟩

end CGAL.Construct_single_cell_2

/-!
The divide-and-conquer strategy
-/

namespace CGAL.Construct_single_cell_2

variable {P X C V H F A G : Type}

theorem half_objects_curves (K : Kernel P X C) (xcvs : List X) (pts : List P) :
    (half_objects xcvs pts : List (Input_object P X C)).flatMap (spec_curves K) = xcvs ∧
    (half_objects xcvs pts : List (Input_object P X C)).flatMap (spec_points K) = pts := by
  unfold half_objects
  constructor
  · induction xcvs with
    | nil =>
      induction pts with
      | nil => rfl
      | cons p rest ih => simp [List.flatMap_cons, spec_curves]
    | cons x rest ih => simp [List.flatMap_cons, spec_curves] at ih ⊢; exact ih
  · induction xcvs with
    | nil =>
      induction pts with
      | nil => rfl
      | cons p rest ih => simpa [List.flatMap_cons, spec_points] using ih
    | cons x rest ih => simpa [List.flatMap_cons, spec_points] using ih

theorem init_half_objects (K : Kernel P X C) (xcvs : List X) (pts : List P) :
    (init K (half_objects xcvs pts) : Except Failure (Construct_single_cell_2 P X C V H F A))
      = .ok (half_instance xcvs pts) := by
  have hwf : ∀ o ∈ (half_objects xcvs pts : List (Input_object P X C)),
      well_formed K o = true := by
    intro o ho
    simp only [half_objects, List.mem_append, List.mem_map] at ho
    rcases ho with ⟨x, _, rfl⟩ | ⟨p, _, rfl⟩ <;> rfl
  rw [init, push_objects_ok K blank _ hwf, (half_objects_curves K xcvs pts).1,
    (half_objects_curves K xcvs pts).2]
  simp [blank, half_instance]

theorem cell_rbo_naive_fuel_succ [DecidableEq X] (K : Kernel P X C) (Pr : Prims P X V H F A G)
    (fuel : Nat) (s : Construct_single_cell_2 P X C V H F A) (g : G) (pt : P)
    (hslot : s._m_cell_handle_rbo = none) (hsize : 4 < size s) :
    cell_rbo_naive_fuel K Pr (fuel + 1) s g pt =
      rbo_split K Pr (cell_rbo_naive_fuel K Pr fuel) s g pt := by
  have h4 : ¬ s._m_xcvs.length + s._m_pts.length ≤ 4 := by
    unfold size at hsize; omega
  rw [cell_rbo_naive_fuel]
  split
  · rename_i ch hs
    rw [hslot] at hs
    cases hs
  · rw [if_neg h4]
    rfl

theorem cell_rbo_naive_fuel_base [DecidableEq X] (K : Kernel P X C) (Pr : Prims P X V H F A G)
    (fuel : Nat) (s : Construct_single_cell_2 P X C V H F A) (g : G) (pt : P)
    (hslot : s._m_cell_handle_rbo = none) (hsize : size s ≤ 4) :
    cell_rbo_naive_fuel K Pr (fuel + 1) s g pt =
      .ok ({ (cell_pl Pr { s with _mt_rec_anchor := s._mt_rec_anchor.start } pt).1 with
              _mt_rec_anchor :=
                (cell_pl Pr { s with _mt_rec_anchor := s._mt_rec_anchor.start }
                  pt).1._mt_rec_anchor.stop,
              _m_cell_handle_rbo :=
                some (cell_pl Pr { s with _mt_rec_anchor := s._mt_rec_anchor.start } pt).2 },
           g, (cell_pl Pr { s with _mt_rec_anchor := s._mt_rec_anchor.start } pt).2) := by
  rw [cell_rbo_naive_fuel]
  split
  · rename_i ch hs
    rw [hslot] at hs
    cases hs
  · rw [if_pos (by unfold size at hsize; exact hsize)]

theorem half_sizes (Pr : Prims P X V H F A G) (s : Construct_single_cell_2 P X C V H F A) (g : G)
    (hsize : 4 < size s) :
    size (red_half (rbo_shuffled Pr s g).1) < size s ∧
    size (blue_half (rbo_shuffled Pr s g).1) < size s := by
  have hx := (Pr.random_shuffle_xcvs_perm g s._m_xcvs).length_eq
  have hp := (Pr.random_shuffle_pts_perm (Pr.random_shuffle_xcvs g s._m_xcvs).2 s._m_pts).length_eq
  simp only [size, red_half, blue_half, rbo_shuffled, half_instance, List.length_take,
    List.length_drop, hx, hp] at hsize ⊢
  omega

theorem rbo_split_eq [DecidableEq X] (K : Kernel P X C) (Pr : Prims P X V H F A G)
    (rc : Construct_single_cell_2 P X C V H F A → G → P →
      Except Failure (Construct_single_cell_2 P X C V H F A × G × Cell_object V H F))
    (s : Construct_single_cell_2 P X C V H F A) (g : G) (pt : P) :
    rbo_split K Pr rc s g pt =
      match rc (red_half (rbo_shuffled Pr s g).1) (rbo_shuffled Pr s g).2 pt with
      | .error e => .error e
      | .ok (r0, g0, cell_handle0) =>
        match cell_arr Pr (rbo_shuffled Pr s g).1 (rbo_arr Pr r0) cell_handle0 Pr.empty_arr with
        | .error e => .error e
        | .ok (s2, cell0) =>
          match rc (blue_half (rbo_shuffled Pr s g).1) g0 pt with
          | .error e => .error e
          | .ok (r1, g1, cell_handle1) =>
            match cell_arr Pr s2 (rbo_arr Pr r1) cell_handle1 Pr.empty_arr with
            | .error e => .error e
            | .ok (s3, cell1) =>
              .ok (rbo_merged Pr s3 (Pr.overlay cell0 cell1) pt, g1,
                   Pr.locate (Pr.overlay cell0 cell1) pt) := by
  unfold rbo_split
  simp only [init_half_objects]
  rfl

theorem rbo_split_congr [DecidableEq X] (K : Kernel P X C) (Pr : Prims P X V H F A G)
    (rc1 rc2 : Construct_single_cell_2 P X C V H F A → G → P →
      Except Failure (Construct_single_cell_2 P X C V H F A × G × Cell_object V H F))
    (s : Construct_single_cell_2 P X C V H F A) (g : G) (pt : P)
    (hred : ∀ g1, rc1 (red_half (rbo_shuffled Pr s g).1) g1 pt =
      rc2 (red_half (rbo_shuffled Pr s g).1) g1 pt)
    (hblue : ∀ g1, rc1 (blue_half (rbo_shuffled Pr s g).1) g1 pt =
      rc2 (blue_half (rbo_shuffled Pr s g).1) g1 pt) :
    rbo_split K Pr rc1 s g pt = rbo_split K Pr rc2 s g pt := by
  rw [rbo_split_eq, rbo_split_eq]
  simp only [hred, hblue]

theorem cell_rbo_naive_fuel_eq [DecidableEq X] (K : Kernel P X C) (Pr : Prims P X V H F A G)
    (pt : P) (f : Nat) :
    ∀ (s : Construct_single_cell_2 P X C V H F A) (g : G), size s < f →
      cell_rbo_naive_fuel K Pr f s g pt = cell_rbo_naive K Pr s g pt := by
  induction f using Nat.strong_induction_on with
  | _ f ih =>
    intro s g hf
    cases f with
    | zero => omega
    | succ n =>
      unfold cell_rbo_naive
      cases hslot : s._m_cell_handle_rbo with
      | some ch =>
        rw [cell_rbo_naive_fuel_cached K Pr _ s g pt ch hslot,
          cell_rbo_naive_fuel_cached K Pr _ s g pt ch hslot]
      | none =>
        by_cases hsize : 4 < size s
        · have hh := half_sizes Pr s g hsize
          rw [cell_rbo_naive_fuel_succ K Pr _ s g pt hslot hsize,
            cell_rbo_naive_fuel_succ K Pr _ s g pt hslot hsize]
          rw [rbo_split_congr K Pr (cell_rbo_naive_fuel K Pr n) (cell_rbo_naive K Pr) s g pt
              (fun g1 => ih n (Nat.lt_succ_self n) _ g1 (by omega))
              (fun g1 => ih n (Nat.lt_succ_self n) _ g1 (by omega)),
            rbo_split_congr K Pr (cell_rbo_naive_fuel K Pr (s._m_xcvs.length + s._m_pts.length))
              (cell_rbo_naive K Pr) s g pt
              (fun g1 => ih _ hf _ g1 hh.1)
              (fun g1 => ih _ hf _ g1 hh.2)]
        · rw [cell_rbo_naive_fuel_base K Pr _ s g pt hslot (by omega),
            cell_rbo_naive_fuel_base K Pr _ s g pt hslot (by omega)]

theorem cell_rbo_naive_unfold [DecidableEq X] (K : Kernel P X C) (Pr : Prims P X V H F A G)
    (s : Construct_single_cell_2 P X C V H F A) (g : G) (pt : P)
    (hslot : s._m_cell_handle_rbo = none) (hsize : 4 < size s) :
    cell_rbo_naive K Pr s g pt = rbo_split K Pr (cell_rbo_naive K Pr) s g pt := by
  have hh := half_sizes Pr s g hsize
  rw [cell_rbo_naive, cell_rbo_naive_fuel_succ K Pr _ s g pt hslot hsize]
  exact rbo_split_congr K Pr _ _ s g pt
    (fun g1 => cell_rbo_naive_fuel_eq K Pr pt _ _ g1 hh.1)
    (fun g1 => cell_rbo_naive_fuel_eq K Pr pt _ _ g1 hh.2)

end CGAL.Construct_single_cell_2

namespace CGAL.Construct_single_cell_2

variable {P X C V H F A G : Type}

theorem cell_pl_anchor (Pr : Prims P X V H F A G) (s : Construct_single_cell_2 P X C V H F A)
    (pt : P) (t : Timer) :
    (cell_pl Pr { s with _mt_rec_anchor := t } pt).2 = (cell_pl Pr s pt).2 := by
  unfold cell_pl
  cases h : s._m_cell_handle_pl <;> simp [h]

theorem cell_pl_members (Pr : Prims P X V H F A G) (s : Construct_single_cell_2 P X C V H F A)
    (pt : P) :
    (cell_pl Pr s pt).1._m_xcvs = s._m_xcvs ∧ (cell_pl Pr s pt).1._m_pts = s._m_pts ∧
    (cell_pl Pr s pt).1._m_arr_purple = s._m_arr_purple := by
  unfold cell_pl
  cases h : s._m_cell_handle_pl <;> simp [h]

theorem rbo_split_ok_iff [DecidableEq X] (K : Kernel P X C) (Pr : Prims P X V H F A G)
    (rc : Construct_single_cell_2 P X C V H F A → G → P →
      Except Failure (Construct_single_cell_2 P X C V H F A × G × Cell_object V H F))
    (s s1 : Construct_single_cell_2 P X C V H F A) (g g1 : G) (pt : P) (ch : Cell_object V H F) :
    rbo_split K Pr rc s g pt = .ok (s1, g1, ch) ↔
      ∃ r0 g0 ch0 s2 M0 r1 ch1 s3 M1,
        rc (red_half (rbo_shuffled Pr s g).1) (rbo_shuffled Pr s g).2 pt = .ok (r0, g0, ch0) ∧
        cell_arr Pr (rbo_shuffled Pr s g).1 (rbo_arr Pr r0) ch0 Pr.empty_arr = .ok (s2, M0) ∧
        rc (blue_half (rbo_shuffled Pr s g).1) g0 pt = .ok (r1, g1, ch1) ∧
        cell_arr Pr s2 (rbo_arr Pr r1) ch1 Pr.empty_arr = .ok (s3, M1) ∧
        ch = Pr.locate (Pr.overlay M0 M1) pt ∧
        s1 = rbo_merged Pr s3 (Pr.overlay M0 M1) pt := by
  rw [rbo_split_eq]
  constructor
  · intro h
    cases h0 : rc (red_half (rbo_shuffled Pr s g).1) (rbo_shuffled Pr s g).2 pt with
    | error e => rw [h0] at h; cases h
    | ok v0 =>
      obtain ⟨r0, g0, ch0⟩ := v0
      rw [h0] at h
      dsimp only at h
      cases hM0 : cell_arr Pr (rbo_shuffled Pr s g).1 (rbo_arr Pr r0) ch0 Pr.empty_arr with
      | error e => rw [hM0] at h; cases h
      | ok w0 =>
        obtain ⟨s2, M0⟩ := w0
        rw [hM0] at h
        dsimp only at h
        cases h1 : rc (blue_half (rbo_shuffled Pr s g).1) g0 pt with
        | error e => rw [h1] at h; cases h
        | ok v1 =>
          obtain ⟨r1, g1a, ch1⟩ := v1
          rw [h1] at h
          dsimp only at h
          cases hM1 : cell_arr Pr s2 (rbo_arr Pr r1) ch1 Pr.empty_arr with
          | error e => rw [hM1] at h; cases h
          | ok w1 =>
            obtain ⟨s3, M1⟩ := w1
            rw [hM1] at h
            simp only [Except.ok.injEq, Prod.mk.injEq] at h
            obtain ⟨hs, hg, hc⟩ := h
            subst hg
            exact ⟨r0, g0, ch0, s2, M0, r1, ch1, s3, M1, rfl, hM0, h1, hM1, hc.symm, hs.symm⟩
  · rintro ⟨r0, g0, ch0, s2, M0, r1, ch1, s3, M1, h0, hM0, h1, hM1, rfl, rfl⟩
    simp only [h0, hM0, h1, hM1]

theorem cell_rbo_naive_base [DecidableEq X] (K : Kernel P X C) (Pr : Prims P X V H F A G)
    (s : Construct_single_cell_2 P X C V H F A) (g : G) (pt : P)
    (hslot : s._m_cell_handle_rbo = none) (hsize : size s ≤ 4) :
    ∃ s1, cell_rbo_naive K Pr s g pt = .ok (s1, g, (cell_pl Pr s pt).2) ∧
      s1._m_cell_handle_pl = some (cell_pl Pr s pt).2 ∧
      s1._m_xcvs = s._m_xcvs ∧ s1._m_pts = s._m_pts ∧
      s1._m_arr_purple = s._m_arr_purple := by
  have hb := cell_rbo_naive_fuel_base K Pr (s._m_xcvs.length + s._m_pts.length) s g pt
    hslot hsize
  rw [cell_pl_anchor] at hb
  refine ⟨_, hb, ?_, ?_, ?_, ?_⟩
  · exact (cell_pl_slot Pr _ pt).trans (by rw [cell_pl_anchor])
  · exact (cell_pl_members Pr _ pt).1
  · exact (cell_pl_members Pr _ pt).2.1
  · exact (cell_pl_members Pr _ pt).2.2

/-- C11: on an instance whose slot is empty and that holds at most 4 classified
curves and points, `cell_rbo_naive(pt)` returns the handle `cell_pl(pt)`
returns on that instance and fills the point-location slot with it; the
generator state, the two classified sequences and `_m_arr_purple` are as
before (no shuffle, no split, no overlay, no instance of a half). With more
than 4 classified objects the call is the recursive case. -/
theorem cell_rbo_naive_threshold [DecidableEq X] (K : Kernel P X C) (Pr : Prims P X V H F A G)
    (s : Construct_single_cell_2 P X C V H F A) (g : G) (pt : P)
    (hslot : s._m_cell_handle_rbo = none) :
    (size s ≤ 4 →
      ∃ s1, cell_rbo_naive K Pr s g pt = .ok (s1, g, (cell_pl Pr s pt).2) ∧
        s1._m_cell_handle_pl = some (cell_pl Pr s pt).2 ∧
        s1._m_xcvs = s._m_xcvs ∧ s1._m_pts = s._m_pts ∧
        s1._m_arr_purple = s._m_arr_purple) ∧
    (4 < size s →
      cell_rbo_naive K Pr s g pt = rbo_split K Pr (cell_rbo_naive K Pr) s g pt) := by
  exact ⟨cell_rbo_naive_base K Pr s g pt hslot, cell_rbo_naive_unfold K Pr s g pt hslot⟩

/-- C11 on fresh instances of the world of horizontal lines: with four objects
the call returns the handle of `cell_pl` and consumes no random number; with
five lines it shuffles and the generator state advances. -/
theorem cell_rbo_naive_threshold_witness :
    (∃ s1, cell_rbo_naive Lines.kernel Lines.prims (Lines.fresh [5, 1, 7] [(0, 0)]) 0 (0, 6)
        = .ok (s1, 0, .face (.below (some 7))) ∧
      (cell_pl Lines.prims (Lines.fresh [5, 1, 7] [(0, 0)]) (0, 6)).2
        = .face (.below (some 7))) ∧
    (∃ s1, rbo_split Lines.kernel Lines.prims (cell_rbo_naive Lines.kernel Lines.prims)
        (Lines.fresh [5, 1, 2, 7, 9] []) 0 (0, 6) = .ok (s1, 2, .face (.below (some 7))) ∧
      cell_rbo_naive Lines.kernel Lines.prims (Lines.fresh [5, 1, 2, 7, 9] []) 0 (0, 6)
        = .ok (s1, 2, .face (.below (some 7)))) := by
  refine ⟨?_, ?_⟩
  · obtain ⟨s1, h, -⟩ := (cell_rbo_naive_threshold Lines.kernel Lines.prims
      (Lines.fresh [5, 1, 7] [(0, 0)]) 0 (0, 6) rfl).1 (by decide)
    have hpl : (cell_pl Lines.prims (Lines.fresh [5, 1, 7] [(0, 0)]) (0, 6)).2
        = .face (.below (some 7)) := by decide
    exact ⟨s1, hpl ▸ h, hpl⟩
  · have h := (cell_rbo_naive_threshold Lines.kernel Lines.prims
      (Lines.fresh [5, 1, 2, 7, 9] []) 0 (0, 6) rfl).2 (by decide)
    have h2 : ∃ s1, rbo_split Lines.kernel Lines.prims (cell_rbo_naive Lines.kernel Lines.prims)
        (Lines.fresh [5, 1, 2, 7, 9] []) 0 (0, 6) = .ok (s1, 2, .face (.below (some 7))) :=
      ⟨_, rfl⟩
    obtain ⟨s1, h3⟩ := h2
    exact ⟨s1, h3, h.trans h3⟩

end CGAL.Construct_single_cell_2

namespace CGAL.Construct_single_cell_2

variable {P X C V H F A G : Type}

/-- C12, as stated, fails: the range of the general curve with the pieces
`y = 1` and `y = 2`, the lines `y = 5` and `y = 7` and the point `(0, 0)` has
exactly 4 input objects, each of one of the three kinds, but classifies into 5
curves and points, and `cell_rbo_naive` takes the recursive case: it shuffles
(the generator state advances to 2), builds `_m_arr_purple`, and leaves the
point-location slot and `_m_full_arr` of the instance empty. -/
theorem four_objects_not_delegated :
    [Input_object.curve [1, 2], .xcurve 5, .xcurve 7, .point ((0, 0) : Lines.Pt)].length = 4 ∧
    (∀ o ∈ [Input_object.curve [1, 2], .xcurve 5, .xcurve 7, .point (0, 0)],
      well_formed Lines.kernel o = true) ∧
    (init Lines.kernel [Input_object.curve [1, 2], .xcurve 5, .xcurve 7, .point (0, 0)]
      : Except Failure Lines.Single_cell) =
      .ok { Lines.fresh [1, 2, 5, 7] [(0, 0)] with
            _m_objects := [Input_object.curve [1, 2], .xcurve 5, .xcurve 7, .point (0, 0)] } ∧
    (cell_rbo_naive Lines.kernel Lines.prims
      { Lines.fresh [1, 2, 5, 7] [(0, 0)] with
        _m_objects := [Input_object.curve [1, 2], .xcurve 5, .xcurve 7, .point (0, 0)] }
      0 (0, 6)).map
      (fun r => (r.1._m_cell_handle_pl, r.1._m_full_arr, r.1._m_arr_purple, r.2))
      = .ok (none, none, some ⟨[7, 5, 2], []⟩, 2, .face (.below (some 7))) :=
  ⟨rfl, by decide, rfl, rfl⟩

/-- C12, amended: for a range of exactly 4 input objects, each a point, an
x-monotone curve or a general curve, whose classification yields at most 4
curves and points, the constructor succeeds and `cell_rbo_naive(pt)` on the
instance returns the handle `cell_pl(pt)` returns on it, which is the result of
locating `pt` in the arrangement of the classified curves and points, and
fills the point-location slot with it. -/
theorem four_objects_delegate [DecidableEq X] (K : Kernel P X C) (Pr : Prims P X V H F A G)
    (objects : List (Input_object P X C)) (g : G) (pt : P)
    (hlen : objects.length = 4)
    (hwf : ∀ o ∈ objects, well_formed K o = true)
    (hcount : (objects.flatMap (spec_curves K)).length +
      (objects.flatMap (spec_points K)).length ≤ 4) :
    ∃ s s1 : Construct_single_cell_2 P X C V H F A,
      init K objects = .ok s ∧ s._m_objects.length = 4 ∧
      cell_rbo_naive K Pr s g pt = .ok (s1, g, (cell_pl Pr s pt).2) ∧
      (cell_pl Pr s pt).2 = Pr.locate (Pr.insert_empty Pr.empty_arr s._m_xcvs s._m_pts) pt ∧
      s1._m_cell_handle_pl = some (cell_pl Pr s pt).2 := by
  have hinit := push_objects_ok K (blank : Construct_single_cell_2 P X C V H F A) objects hwf
  generalize hs : ({ (blank : Construct_single_cell_2 P X C V H F A) with
      _m_objects := blank._m_objects ++ objects,
      _m_xcvs := blank._m_xcvs ++ objects.flatMap (spec_curves K),
      _m_pts := blank._m_pts ++ objects.flatMap (spec_points K) } :
      Construct_single_cell_2 P X C V H F A) = s at hinit
  have hslot : s._m_cell_handle_rbo = none := by rw [← hs]; rfl
  have hpl : s._m_cell_handle_pl = none := by rw [← hs]; rfl
  have hobj : s._m_objects = objects := by rw [← hs]; simp [blank]
  have hsize : size s ≤ 4 := by
    rw [← hs]
    simpa [size, blank] using hcount
  obtain ⟨s1, h1, h2, -⟩ := cell_rbo_naive_base K Pr s g pt hslot hsize
  refine ⟨s, s1, hinit, ?_, h1, ?_, h2⟩
  · rw [hobj]; exact hlen
  · simp [cell_pl, hpl]

/-- C12, amended, on a range of 4 objects whose general curve has one piece:
the constructor yields three lines and one point, and the call fills the
point-location slot and returns the face under `y = 7` without a shuffle. -/
theorem four_objects_delegate_witness :
    (init Lines.kernel [Input_object.curve [1], .xcurve 5, .xcurve 7, .point (0, 0)]
      : Except Failure Lines.Single_cell) =
      .ok { Lines.fresh [1, 5, 7] [(0, 0)] with
            _m_objects := [Input_object.curve [1], .xcurve 5, .xcurve 7, .point (0, 0)] } ∧
    (cell_rbo_naive Lines.kernel Lines.prims
      { Lines.fresh [1, 5, 7] [(0, 0)] with
        _m_objects := [Input_object.curve [1], .xcurve 5, .xcurve 7, .point (0, 0)] }
      0 (0, 6)).map (fun r => (r.1._m_cell_handle_pl, r.2))
      = .ok (some (.face (.below (some 7))), 0, .face (.below (some 7))) ∧
    ∃ s s1 : Lines.Single_cell,
      init Lines.kernel [Input_object.curve [1], .xcurve 5, .xcurve 7, .point (0, 0)] = .ok s ∧
      cell_rbo_naive Lines.kernel Lines.prims s 0 (0, 6)
        = .ok (s1, 0, (cell_pl Lines.prims s (0, 6)).2) ∧
      s1._m_cell_handle_pl = some (cell_pl Lines.prims s (0, 6)).2 := by
  refine ⟨rfl, rfl, ?_⟩
  obtain ⟨s, s1, h1, -, h2, -, h4⟩ := four_objects_delegate Lines.kernel Lines.prims
    [Input_object.curve [1], .xcurve 5, .xcurve 7, .point (0, 0)] 0 (0, 6) rfl
    (by decide) (by decide)
  exact ⟨s, s1, h1, h2, h4⟩

/-- C13: on an instance whose slot is empty and that holds more than 4
classified objects, `cell_rbo_naive(pt)` returns exactly when the calls
`cell_rbo_naive(pt)` on the instances of the red and of the blue half and the
two calls of `cell_arr` on the returned handles return; the instance of a half
is the one the constructor builds from the objects of the half; the handle
returned is the result of locating `pt` in the overlay of the two arrangements
`cell_arr` has filled, and that overlay is stored in `_m_arr_purple`. -/
theorem cell_rbo_naive_recursive [DecidableEq X] (K : Kernel P X C) (Pr : Prims P X V H F A G)
    (s s1 : Construct_single_cell_2 P X C V H F A) (g g1 : G) (pt : P) (ch : Cell_object V H F)
    (hslot : s._m_cell_handle_rbo = none) (hsize : 4 < size s) :
    (init K (red_half (rbo_shuffled Pr s g).1)._m_objects
      = .ok (red_half (rbo_shuffled Pr s g).1) ∧
     init K (blue_half (rbo_shuffled Pr s g).1)._m_objects
      = .ok (blue_half (rbo_shuffled Pr s g).1)) ∧
    (cell_rbo_naive K Pr s g pt = .ok (s1, g1, ch) ↔
      ∃ r0 g0 ch0 s2 M0 r1 ch1 s3 M1,
        cell_rbo_naive K Pr (red_half (rbo_shuffled Pr s g).1) (rbo_shuffled Pr s g).2 pt
          = .ok (r0, g0, ch0) ∧
        cell_arr Pr (rbo_shuffled Pr s g).1 (rbo_arr Pr r0) ch0 Pr.empty_arr = .ok (s2, M0) ∧
        cell_rbo_naive K Pr (blue_half (rbo_shuffled Pr s g).1) g0 pt = .ok (r1, g1, ch1) ∧
        cell_arr Pr s2 (rbo_arr Pr r1) ch1 Pr.empty_arr = .ok (s3, M1) ∧
        ch = Pr.locate (Pr.overlay M0 M1) pt ∧
        s1 = rbo_merged Pr s3 (Pr.overlay M0 M1) pt) := by
  refine ⟨⟨init_half_objects K _ _, init_half_objects K _ _⟩, ?_⟩
  rw [cell_rbo_naive_unfold K Pr s g pt hslot hsize]
  exact rbo_split_ok_iff K Pr _ s s1 g g1 pt ch

/-- C13 on a fresh instance over five lines and the query point `(0, 6)`: the
red half (the lines 9 and 7 after the shuffle) yields the face under `y = 7`,
the blue half (the lines 2, 1 and 5) the face above `y = 5`, and the call
returns the face under `y = 7` located in the overlay of the two cells. -/
theorem cell_rbo_naive_recursive_witness :
    ∃ s1 r0 r1 s2 s3,
      cell_rbo_naive Lines.kernel Lines.prims (Lines.fresh [5, 1, 2, 7, 9] []) 0 (0, 6)
        = .ok (s1, 2, .face (.below (some 7))) ∧
      cell_rbo_naive Lines.kernel Lines.prims (Lines.fresh [9, 7] []) 2 (0, 6)
        = .ok (r0, 2, .face (.below (some 7))) ∧
      cell_arr Lines.prims (rbo_shuffled Lines.prims (Lines.fresh [5, 1, 2, 7, 9] []) 0).1
        (rbo_arr Lines.prims r0) (.face (.below (some 7))) ⟨[], []⟩ = .ok (s2, ⟨[7], []⟩) ∧
      cell_rbo_naive Lines.kernel Lines.prims (Lines.fresh [2, 1, 5] []) 2 (0, 6)
        = .ok (r1, 2, .face (.below none)) ∧
      cell_arr Lines.prims s2 (rbo_arr Lines.prims r1) (.face (.below none)) ⟨[], []⟩
        = .ok (s3, ⟨[5], []⟩) ∧
      s1._m_arr_purple = some ⟨[7, 5], []⟩ :=
  have h := (cell_rbo_naive_recursive Lines.kernel Lines.prims (Lines.fresh [5, 1, 2, 7, 9] [])
    _ 0 2 (0, 6) (.face (.below (some 7))) rfl (by decide)).2.2
    ⟨_, 2, .face (.below (some 7)), _, ⟨[7], []⟩, _, .face (.below none), _, ⟨[5], []⟩,
      rfl, rfl, rfl, rfl, rfl, rfl⟩
  ⟨_, _, _, _, _, h, rfl, rfl, rfl, rfl, rfl⟩

end CGAL.Construct_single_cell_2

/-!
The incremental strategy: short circuit and the classified input as a bag
-/

namespace CGAL.Construct_single_cell_2

variable {P X C V H F A G : Type}

/-- C14, as stated, fails on an instance whose slot is filled: after
`cell_ri((0, 4))` on the instance over the line `y = 5` and the point `(1, 1)`,
point location of `(1, 1)` in the points-only arrangement returns the vertex of
that point, but `cell_ri((1, 1))` returns the face handle stored by the first
call. -/
theorem cell_ri_filled_slot_no_short_circuit :
    ∃ s g,
      cell_ri Lines.kernel Lines.prims (Lines.fresh [5] [(1, 1)]) 0 (0, 4)
        = .ok (s, g, .face (.below none)) ∧
      Lines.prims.locate
        (Lines.prims.non_intersecting_insert_empty Lines.prims.empty_arr [] s._m_pts) (1, 1)
        = .vertex (.isolated (1, 1)) ∧
      cell_ri Lines.kernel Lines.prims s g (1, 1) = .ok (s, g, .face (.below none)) :=
  ⟨_, _, rfl, rfl, rfl⟩

/-- C14, amended: on an instance whose slot `_m_cell_handle_ri` is empty, if
point location of the query point in the points-only arrangement returns a
handle that is not a face handle, `cell_ri` returns that handle and stores it;
`_m_arr_city` is the points-only arrangement (no curve is inserted), and the
classified curves, the classified points and the generator state are as
before. -/
theorem cell_ri_short_circuit [DecidableEq X] [DecidableEq V] (K : Kernel P X C)
    (Pr : Prims P X V H F A G) (s : Construct_single_cell_2 P X C V H F A) (g : G) (pt : P)
    (ch : Cell_object V H F) (hslot : s._m_cell_handle_ri = none)
    (hloc : Pr.locate (Pr.non_intersecting_insert_empty Pr.empty_arr [] s._m_pts) pt = ch)
    (hnf : ∀ fh, ch ≠ .face fh) :
    ∃ s1, cell_ri K Pr s g pt = .ok (s1, g, ch) ∧
      s1._m_cell_handle_ri = some ch ∧
      s1._m_arr_city = some (Pr.non_intersecting_insert_empty Pr.empty_arr [] s._m_pts) ∧
      s1._m_xcvs = s._m_xcvs ∧ s1._m_pts = s._m_pts := by
  refine ⟨{ s with
      _m_arr_city := some (Pr.non_intersecting_insert_empty Pr.empty_arr [] s._m_pts),
      _m_cell_handle_ri := some ch }, ?_, rfl, rfl, rfl, rfl⟩
  cases ch with
  | face fh => exact absurd rfl (hnf fh)
  | vertex v => simp [cell_ri, hslot, hloc]
  | halfedge h => simp [cell_ri, hslot, hloc]
  | empty => simp [cell_ri, hslot, hloc]

/-- C14, amended, on a fresh instance over two lines and the point `(1, 1)`,
queried at that point: the vertex is returned, the lines keep their order. -/
theorem cell_ri_short_circuit_witness :
    ∃ s1, cell_ri Lines.kernel Lines.prims (Lines.fresh [5, 3] [(1, 1)]) 0 (1, 1)
        = .ok (s1, 0, .vertex (.isolated (1, 1))) ∧
      s1._m_arr_city = some ⟨[], [(1, 1)]⟩ ∧ s1._m_xcvs = [5, 3] := by
  obtain ⟨s1, h1, -, h3, h4, -⟩ := cell_ri_short_circuit Lines.kernel Lines.prims
    (Lines.fresh [5, 3] [(1, 1)]) 0 (1, 1) (.vertex (.isolated (1, 1))) rfl rfl
    (fun _ h => by cases h)
  exact ⟨s1, h1, h3, h4⟩

/-- C16: for a range of points only and a query point equal to one of them,
the constructor succeeds and `cell_pl` on the instance returns a vertex handle
whose point is the query point, given that `insert_empty` makes every input
point the point of a vertex and that point location at the point of a vertex
returns a vertex with that point. -/
theorem cell_pl_isolated_points (K : Kernel P X C) (Pr : Prims P X V H F A G)
    (pts : List P) (q : P) (hne : pts ≠ []) (hq : q ∈ pts) (is_vertex : A → V → Prop)
    (hinsert : ∀ p ∈ pts, ∃ v, is_vertex (Pr.insert_empty Pr.empty_arr [] pts) v ∧
      Pr.point (Pr.insert_empty Pr.empty_arr [] pts) v = p)
    (hlocate : ∀ a v, is_vertex a v →
      ∃ v1, Pr.locate a (Pr.point a v) = .vertex v1 ∧ Pr.point a v1 = Pr.point a v) :
    ∃ s : Construct_single_cell_2 P X C V H F A,
      init K (pts.map Input_object.point) = .ok s ∧ s._m_xcvs = [] ∧ s._m_pts = pts ∧
      ∃ v, (cell_pl Pr s q).2 = .vertex v ∧
        Pr.point (Pr.insert_empty Pr.empty_arr [] pts) v = q := by
  have _ := hne
  obtain ⟨v, hv, hpv⟩ := hinsert q hq
  obtain ⟨v1, hl, hp1⟩ := hlocate _ v hv
  refine ⟨half_instance [] pts, init_half_objects K [] pts, rfl, rfl, v1, ?_, ?_⟩
  · rw [hpv] at hl
    simpa [cell_pl, half_instance, blank] using hl
  · rw [hp1, hpv]

/-- C16 on the points `(1, 1)` and `(2, 3)` of the world of horizontal lines,
queried at `(2, 3)`; the vertices of an arrangement are its isolated points. -/
theorem cell_pl_isolated_points_witness :
    ∃ s : Lines.Single_cell,
      init Lines.kernel [Input_object.point (1, 1), .point (2, 3)] = .ok s ∧
      ∃ v, (cell_pl Lines.prims s (2, 3)).2 = .vertex v ∧
        Lines.prims.point ⟨[], [(1, 1), (2, 3)]⟩ v = (2, 3) := by
  obtain ⟨s, h1, -, -, v, h2, h3⟩ := cell_pl_isolated_points Lines.kernel Lines.prims
    [(1, 1), (2, 3)] (2, 3) (by decide) (by decide)
    (fun a v => ∃ p ∈ a.pts, v = Lines.Vtx.isolated p)
    (fun p hp => ⟨.isolated p, ⟨p, by
      have : p = (1, 1) ∨ p = (2, 3) := by simpa using hp
      rcases this with rfl | rfl <;> decide, rfl⟩, rfl⟩)
    (fun a v hv => by
      obtain ⟨p, hp, rfl⟩ := hv
      exact ⟨.isolated p, by simp [Lines.prims, Lines.locate, hp], rfl⟩)
  exact ⟨s, h1, v, h2, h3⟩

theorem cell_arr_members [DecidableEq X] (Pr : Prims P X V H F A G)
    (s s1 : Construct_single_cell_2 P X C V H F A) (a cell cell1 : A)
    (cell_handle : Cell_object V H F)
    (h : cell_arr Pr s a cell_handle cell = .ok (s1, cell1)) :
    s1._m_xcvs = s._m_xcvs ∧ s1._m_pts = s._m_pts := by
  unfold cell_arr at h
  dsimp only at h
  split at h
  · cases h
  · simp only [Except.ok.injEq, Prod.mk.injEq] at h
    obtain ⟨rfl, -⟩ := h
    exact ⟨rfl, rfl⟩

theorem ri_loop_members [DecidableEq X] (K : Kernel P X C) (Pr : Prims P X V H F A G)
    (l : List X) (s s1 : Construct_single_cell_2 P X C V H F A) (city city1 : A)
    (obs obs1 : RI_observer P V H F) (cell_handle cell_handle1 : Cell_object V H F)
    (h : ri_loop K Pr s city obs cell_handle l = .ok (s1, city1, obs1, cell_handle1)) :
    s1._m_xcvs = s._m_xcvs ∧ s1._m_pts = s._m_pts := by
  induction l generalizing s city obs cell_handle with
  | nil =>
    simp only [ri_loop, Except.ok.injEq, Prod.mk.injEq] at h
    obtain ⟨rfl, -⟩ := h
    exact ⟨rfl, rfl⟩
  | cons cv rest ih =>
    simp only [ri_loop] at h
    split at h
    · cases h
    · rename_i s2 new_city hca
      have h2 := cell_arr_members Pr _ _ _ _ _ _ hca
      have h3 := ih _ _ _ _ h
      exact ⟨h3.1.trans h2.1, h3.2.trans h2.2⟩

theorem cell_ri_bag [DecidableEq X] [DecidableEq V] (K : Kernel P X C)
    (Pr : Prims P X V H F A G) (s s1 : Construct_single_cell_2 P X C V H F A) (g g1 : G)
    (pt : P) (ch : Cell_object V H F) (h : cell_ri K Pr s g pt = .ok (s1, g1, ch)) :
    s1._m_xcvs.Perm s._m_xcvs ∧ s1._m_pts.Perm s._m_pts := by
  unfold cell_ri at h
  split at h
  · simp only [Except.ok.injEq, Prod.mk.injEq] at h
    obtain ⟨rfl, -, -⟩ := h
    exact ⟨List.Perm.refl _, List.Perm.refl _⟩
  · dsimp only at h
    split at h
    · split at h
      · cases h
      · split at h
        · cases h
        · rename_i s2 city2 obs2 ch2 hloop
          have hm := ri_loop_members K Pr _ _ _ _ _ _ _ _ _ hloop
          simp only [Except.ok.injEq, Prod.mk.injEq] at h
          obtain ⟨rfl, -, -⟩ := h
          refine ⟨?_, ?_⟩
          · show s2._m_xcvs.Perm s._m_xcvs
            rw [hm.1]
            exact Pr.random_shuffle_xcvs_perm g s._m_xcvs
          · show s2._m_pts.Perm s._m_pts
            rw [hm.2]
    · simp only [Except.ok.injEq, Prod.mk.injEq] at h
      obtain ⟨rfl, -, -⟩ := h
      exact ⟨List.Perm.refl _, List.Perm.refl _⟩

theorem cell_rbo_naive_bag [DecidableEq X] (K : Kernel P X C) (Pr : Prims P X V H F A G)
    (s s1 : Construct_single_cell_2 P X C V H F A) (g g1 : G) (pt : P) (ch : Cell_object V H F)
    (h : cell_rbo_naive K Pr s g pt = .ok (s1, g1, ch)) :
    s1._m_xcvs.Perm s._m_xcvs ∧ s1._m_pts.Perm s._m_pts := by
  cases hslot : s._m_cell_handle_rbo with
  | some c0 =>
    rw [cell_rbo_naive, cell_rbo_naive_fuel_cached K Pr _ s g pt c0 hslot] at h
    simp only [Except.ok.injEq, Prod.mk.injEq] at h
    obtain ⟨rfl, -, -⟩ := h
    exact ⟨List.Perm.refl _, List.Perm.refl _⟩
  | none =>
    by_cases hsize : 4 < size s
    · rw [cell_rbo_naive_unfold K Pr s g pt hslot hsize, rbo_split_ok_iff] at h
      obtain ⟨r0, g0, ch0, s2, M0, r1, ch1, s3, M1, -, hM0, -, hM1, -, rfl⟩ := h
      have h2 := cell_arr_members Pr _ _ _ _ _ _ hM0
      have h3 := cell_arr_members Pr _ _ _ _ _ _ hM1
      refine ⟨?_, ?_⟩
      · show s3._m_xcvs.Perm s._m_xcvs
        rw [h3.1, h2.1]
        exact Pr.random_shuffle_xcvs_perm g s._m_xcvs
      · show s3._m_pts.Perm s._m_pts
        rw [h3.2, h2.2]
        exact Pr.random_shuffle_pts_perm _ s._m_pts
    · rw [cell_rbo_naive, cell_rbo_naive_fuel_base K Pr _ s g pt hslot (by omega)] at h
      simp only [Except.ok.injEq, Prod.mk.injEq] at h
      obtain ⟨rfl, -, -⟩ := h
      have hm := cell_pl_members Pr { s with _mt_rec_anchor := s._mt_rec_anchor.start } pt
      refine ⟨?_, ?_⟩
      · show (cell_pl Pr { s with _mt_rec_anchor := s._mt_rec_anchor.start } pt).1._m_xcvs.Perm
          s._m_xcvs
        rw [hm.1]
      · show (cell_pl Pr { s with _mt_rec_anchor := s._mt_rec_anchor.start } pt).1._m_pts.Perm
          s._m_pts
        rw [hm.2.1]

/-- C17: a call of `cell_pl`, and a call of `cell_ri` or of `cell_rbo_naive`
that returns, leaves a classified curve sequence that is a permutation of the
one before the call and a classified point sequence that is a permutation of
the one before the call. -/
theorem strategies_preserve_bag [DecidableEq X] [DecidableEq V] (K : Kernel P X C)
    (Pr : Prims P X V H F A G) (s : Construct_single_cell_2 P X C V H F A) (g : G) (pt : P) :
    ((cell_pl Pr s pt).1._m_xcvs.Perm s._m_xcvs ∧ (cell_pl Pr s pt).1._m_pts.Perm s._m_pts) ∧
    (∀ s1 g1 ch, cell_ri K Pr s g pt = .ok (s1, g1, ch) →
      s1._m_xcvs.Perm s._m_xcvs ∧ s1._m_pts.Perm s._m_pts) ∧
    (∀ s1 g1 ch, cell_rbo_naive K Pr s g pt = .ok (s1, g1, ch) →
      s1._m_xcvs.Perm s._m_xcvs ∧ s1._m_pts.Perm s._m_pts) := by
  refine ⟨⟨?_, ?_⟩, ?_, ?_⟩
  · rw [(cell_pl_members Pr s pt).1]
  · rw [(cell_pl_members Pr s pt).2.1]
  · exact fun s1 g1 ch h => cell_ri_bag K Pr s s1 g g1 pt ch h
  · exact fun s1 g1 ch h => cell_rbo_naive_bag K Pr s s1 g g1 pt ch h

/-- C17 on a fresh instance over five lines and two points: `cell_ri` and
`cell_rbo_naive` return and leave the reversed sequences. -/
theorem strategies_preserve_bag_witness :
    (∃ s1 g1 ch, cell_ri Lines.kernel Lines.prims (Lines.fresh [5, 1, 2, 7, 9] [(0, 0), (3, 4)])
        0 (0, 6) = .ok (s1, g1, ch) ∧
      s1._m_xcvs = [9, 7, 2, 1, 5] ∧ s1._m_xcvs.Perm [5, 1, 2, 7, 9]) ∧
    (∃ s1 g1 ch, cell_rbo_naive Lines.kernel Lines.prims
        (Lines.fresh [5, 1, 2, 7, 9] [(0, 0), (3, 4)]) 0 (0, 6) = .ok (s1, g1, ch) ∧
      s1._m_pts = [(3, 4), (0, 0)] ∧ s1._m_pts.Perm [(0, 0), (3, 4)]) :=
  have h := strategies_preserve_bag Lines.kernel Lines.prims
    (Lines.fresh [5, 1, 2, 7, 9] [(0, 0), (3, 4)]) 0 (0, 6)
  ⟨⟨_, _, _, rfl, rfl, (h.2.1 _ _ _ rfl).1⟩, ⟨_, _, _, rfl, rfl, (h.2.2 _ _ _ rfl).2⟩⟩

end CGAL.Construct_single_cell_2

/-!
The observer of the incremental strategy
-/

namespace CGAL.RI_observer

variable {P X C V H F A G : Type}

/-- C18 at a failing input (the line `y = 5`, the query point `(0, 2)` under
it, in the world of horizontal lines whose frame reads as the line
`y = 100`): the face split retargets the tracked halfedge to the right-to-left
halfedge of the line, whose face is the face under the line, and `on_update`
would store that face; but the loop of `cell_ri` takes the handle the observer
has held since its construction, the face under the top edge of the frame, and
`cell_ri` returns it. -/
theorem cell_ri_handle_not_recomputed :
    ∃ obs0 s1 city obs1,
      init (Lines.prims_top 100) ⟨[], []⟩ (0, 2) = .ok obs0 ∧
      obs0._m_halfedge_handle = .top true ∧
      Construct_single_cell_2.ri_loop Lines.kernel (Lines.prims_top 100) (Lines.fresh [5] [])
        ⟨[], []⟩ obs0 (.face (.below none)) [5] = .ok (s1, city, obs1, .face (.below none)) ∧
      obs1._m_halfedge_handle = .line 5 true ∧
      (Lines.prims_top 100).face ⟨[5], []⟩ obs1._m_halfedge_handle = .below (some 5) ∧
      (obs1.on_update (Lines.prims_top 100) ⟨[5], []⟩).map cell_handle
        = .ok (.face (.below (some 5))) ∧
      (Construct_single_cell_2.cell_ri Lines.kernel (Lines.prims_top 100) (Lines.fresh [5] [])
        0 (0, 2)).map (fun r => r.2.2) = .ok (.face (.below none)) :=
  ⟨_, _, _, _, rfl, rfl, rfl, rfl, rfl, rfl, rfl⟩

/-- C19: when the curve of the new edge `e` is not vertical, the query point is
in its x-range and strictly below it, and the curve is below the curve of the
tracked halfedge, the notification `before_split_face` sets the tracked
halfedge to `e` if `e` is directed right to left and to the twin of `e`
otherwise; the new tracked halfedge is `e` or its twin, and it is directed
right to left when the twin of `e` has the direction opposite to `e`. The
query point and the stored cell handle are as before. -/
theorem before_split_face_retargets (K : Kernel P X C) (Pr : Prims P X V H F A G) (arr : A)
    (o : RI_observer P V H F) (f : F) (e : H)
    (hv : K.is_vertical (Pr.curve arr e) = false)
    (hr : K.is_in_x_range (Pr.curve arr e) o._m_point = true)
    (hb : K.compare_y_at_x o._m_point (Pr.curve arr e) = .SMALLER)
    (ht : K.compare_y_position (Pr.curve arr e) (Pr.curve arr o._m_halfedge_handle)
      = .SMALLER) :
    (o.notify K Pr arr (.before_split_face f e))._m_halfedge_handle =
      (if Pr.direction arr e = .ARR_RIGHT_TO_LEFT then e else Pr.twin arr e) ∧
    ((o.notify K Pr arr (.before_split_face f e))._m_halfedge_handle = e ∨
      (o.notify K Pr arr (.before_split_face f e))._m_halfedge_handle = Pr.twin arr e) ∧
    (Pr.direction arr (Pr.twin arr e) ≠ Pr.direction arr e →
      Pr.direction arr (o.notify K Pr arr (.before_split_face f e))._m_halfedge_handle
        = .ARR_RIGHT_TO_LEFT) ∧
    (o.notify K Pr arr (.before_split_face f e))._m_point = o._m_point ∧
    (o.notify K Pr arr (.before_split_face f e))._m_cell_handle = o._m_cell_handle := by
  have hn : o.notify K Pr arr (.before_split_face f e) =
      { o with _m_halfedge_handle :=
          if Pr.direction arr e = .ARR_RIGHT_TO_LEFT then e else Pr.twin arr e } := by
    simp [notify, before_split_face, hv, hr, hb, ht]
  rw [hn]
  refine ⟨rfl, ?_, ?_, rfl, rfl⟩
  · by_cases hd : Pr.direction arr e = .ARR_RIGHT_TO_LEFT
    · exact Or.inl (if_pos hd)
    · exact Or.inr (if_neg hd)
  · intro htw
    by_cases hd : Pr.direction arr e = .ARR_RIGHT_TO_LEFT
    · simp only [if_pos hd]
      exact hd
    · simp only [if_neg hd]
      cases hde : Pr.direction arr e with
      | ARR_RIGHT_TO_LEFT => exact absurd hde hd
      | ARR_LEFT_TO_RIGHT =>
        cases hdt : Pr.direction arr (Pr.twin arr e) with
        | ARR_RIGHT_TO_LEFT => rfl
        | ARR_LEFT_TO_RIGHT => exact absurd (hdt.trans hde.symm) htw

/-- C19 for an observer that tracks the line `y = 8` with the query point
`(0, 2)`, at the face split by the left-to-right halfedge of the new line
`y = 5`: the tracked halfedge becomes the twin, directed right to left. -/
theorem before_split_face_retargets_witness :
    (notify Lines.kernel Lines.prims ⟨[8, 5], []⟩
      ⟨(0, 2), Lines.Hedge.line 8 true, Cell_object.face (Lines.Fc.below none)⟩
      (.before_split_face (.below (some 8)) (.line 5 false)))._m_halfedge_handle
      = .line 5 true ∧
    Lines.prims.direction ⟨[8, 5], []⟩ (.line 5 true) = .ARR_RIGHT_TO_LEFT :=
  have h := before_split_face_retargets Lines.kernel Lines.prims ⟨[8, 5], []⟩
    ⟨(0, 2), Lines.Hedge.line 8 true, Cell_object.face (Lines.Fc.below none)⟩
    (.below (some 8)) (.line 5 false) rfl rfl rfl rfl
  ⟨h.1, rfl⟩

/-- C20: the notification `before_split_face` leaves the observer as it is
(the tracked halfedge and the stored cell handle among its members) when the
curve of the new edge is vertical, or the query point is outside its x-range,
or the query point lies on it, or the query point lies above it, or the curve
is not below the curve of the tracked halfedge. -/
theorem before_split_face_unchanged (K : Kernel P X C) (Pr : Prims P X V H F A G) (arr : A)
    (o : RI_observer P V H F) (f : F) (e : H)
    (h : K.is_vertical (Pr.curve arr e) = true ∨
      K.is_in_x_range (Pr.curve arr e) o._m_point = false ∨
      K.compare_y_at_x o._m_point (Pr.curve arr e) = .EQUAL ∨
      K.compare_y_at_x o._m_point (Pr.curve arr e) = .LARGER ∨
      K.compare_y_position (Pr.curve arr e) (Pr.curve arr o._m_halfedge_handle)
        ≠ .SMALLER) :
    o.notify K Pr arr (.before_split_face f e) = o ∧
    (o.notify K Pr arr (.before_split_face f e))._m_halfedge_handle = o._m_halfedge_handle ∧
    (o.notify K Pr arr (.before_split_face f e))._m_cell_handle = o._m_cell_handle := by
  have hn : o.notify K Pr arr (.before_split_face f e) = o := by
    simp only [notify, before_split_face]
    rcases h with h | h | h | h | h
    · simp [h]
    · simp [h]
    · simp [h]
    · simp [h]
    · simp only [if_neg h]
      repeat' split
      all_goals rfl
  rw [hn]
  exact ⟨rfl, rfl, rfl⟩

/-- C20 for an observer that tracks the line `y = 8` with the query point
`(0, 6)`: the query point lies above the new line `y = 5`, and the observer
keeps its tracked halfedge. -/
theorem before_split_face_unchanged_witness :
    notify Lines.kernel Lines.prims ⟨[8, 5], []⟩
      ⟨(0, 6), Lines.Hedge.line 8 true, Cell_object.face (Lines.Fc.below none)⟩
      (.before_split_face (.below (some 8)) (.line 5 false))
      = ⟨(0, 6), Lines.Hedge.line 8 true, Cell_object.face (Lines.Fc.below none)⟩ :=
  (before_split_face_unchanged Lines.kernel Lines.prims ⟨[8, 5], []⟩
    ⟨(0, 6), Lines.Hedge.line 8 true, Cell_object.face (Lines.Fc.below none)⟩
    (.below (some 8)) (.line 5 false) (Or.inr (Or.inr (Or.inr (Or.inl rfl))))).1

end CGAL.RI_observer

/-!
The divide-and-conquer strategy: the halves and the depth of the recursion
-/

namespace CGAL.Construct_single_cell_2

variable {P X C V H F A G : Type}

theorem cell_arr_error [DecidableEq X] (Pr : Prims P X V H F A G)
    (s : Construct_single_cell_2 P X C V H F A) (a cell : A) (cell_handle : Cell_object V H F)
    (e : Failure) (h : cell_arr Pr s a cell_handle cell = .error e) :
    e = .assertion_failed := by
  cases cell_handle with
  | vertex vh => cases h
  | halfedge heh => cases h
  | face fh => cases h
  | empty =>
    have h2 : cell_arr Pr s a Cell_object.empty cell = .error .assertion_failed := rfl
    rw [h] at h2
    exact Except.error.inj h2

theorem cell_rbo_naive_fuel_free [DecidableEq X] (K : Kernel P X C) (Pr : Prims P X V H F A G)
    (pt : P) (n : Nat) :
    ∀ (s : Construct_single_cell_2 P X C V H F A) (g : G), size s ≤ n →
      cell_rbo_naive K Pr s g pt ≠ .error .out_of_fuel := by
  induction n using Nat.strong_induction_on with
  | _ n ih =>
    intro s g hn
    cases hslot : s._m_cell_handle_rbo with
    | some ch =>
      rw [cell_rbo_naive, cell_rbo_naive_fuel_cached K Pr _ s g pt ch hslot]
      exact fun h => by cases h
    | none =>
      by_cases hsize : 4 < size s
      · have hh := half_sizes Pr s g hsize
        rw [cell_rbo_naive_unfold K Pr s g pt hslot hsize, rbo_split_eq]
        cases hr0 : cell_rbo_naive K Pr (red_half (rbo_shuffled Pr s g).1)
            (rbo_shuffled Pr s g).2 pt with
        | error e =>
          intro h
          exact ih _ (by omega) _ _ (le_refl _) (hr0.trans h)
        | ok v0 =>
          obtain ⟨r0, g0, ch0⟩ := v0
          dsimp only
          cases hM0 : cell_arr Pr (rbo_shuffled Pr s g).1 (rbo_arr Pr r0) ch0 Pr.empty_arr with
          | error e =>
            intro h
            have := cell_arr_error Pr _ _ _ _ e hM0
            rw [this] at h
            cases h
          | ok w0 =>
            obtain ⟨s2, M0⟩ := w0
            dsimp only
            cases hr1 : cell_rbo_naive K Pr (blue_half (rbo_shuffled Pr s g).1) g0 pt with
            | error e =>
              intro h
              exact ih _ (by omega) _ _ (le_refl _) (hr1.trans h)
            | ok v1 =>
              obtain ⟨r1, g1, ch1⟩ := v1
              dsimp only
              cases hM1 : cell_arr Pr s2 (rbo_arr Pr r1) ch1 Pr.empty_arr with
              | error e =>
                intro h
                have := cell_arr_error Pr _ _ _ _ e hM1
                rw [this] at h
                cases h
              | ok w1 =>
                intro h
                cases h
      · rw [cell_rbo_naive, cell_rbo_naive_fuel_base K Pr _ s g pt hslot (by omega)]
        exact fun h => by cases h

theorem half_counts (Pr : Prims P X V H F A G) (s : Construct_single_cell_2 P X C V H F A)
    (g : G) :
    size (red_half (rbo_shuffled Pr s g).1) = s._m_xcvs.length / 2 + s._m_pts.length / 2 ∧
    size (blue_half (rbo_shuffled Pr s g).1) =
      (s._m_xcvs.length - s._m_xcvs.length / 2) + (s._m_pts.length - s._m_pts.length / 2) := by
  have hx := (Pr.random_shuffle_xcvs_perm g s._m_xcvs).length_eq
  have hp := (Pr.random_shuffle_pts_perm (Pr.random_shuffle_xcvs g s._m_xcvs).2 s._m_pts).length_eq
  simp only [size, red_half, blue_half, rbo_shuffled, half_instance, List.length_take,
    List.length_drop, hx, hp, Nat.div_le_self, inf_of_le_left, and_self]

/-- C23: in the recursive case of `cell_rbo_naive` the red half holds the first
`n / 2` entries of the shuffled curve list of length `n` and the blue half the
other `n - n / 2` entries, so that red followed by blue is the shuffled list
and every entry is counted in exactly one half; the same holds for the
shuffled point list, cut at its own midpoint. -/
theorem red_blue_partition [DecidableEq X] [DecidableEq P] (Pr : Prims P X V H F A G)
    (s : Construct_single_cell_2 P X C V H F A) (g : G) :
    ((rbo_shuffled Pr s g).1._m_xcvs = (Pr.random_shuffle_xcvs g s._m_xcvs).1 ∧
      (red_half (rbo_shuffled Pr s g).1)._m_xcvs =
        (rbo_shuffled Pr s g).1._m_xcvs.take ((rbo_shuffled Pr s g).1._m_xcvs.length / 2) ∧
      (red_half (rbo_shuffled Pr s g).1)._m_xcvs.length =
        (rbo_shuffled Pr s g).1._m_xcvs.length / 2 ∧
      (blue_half (rbo_shuffled Pr s g).1)._m_xcvs.length =
        (rbo_shuffled Pr s g).1._m_xcvs.length - (rbo_shuffled Pr s g).1._m_xcvs.length / 2 ∧
      (red_half (rbo_shuffled Pr s g).1)._m_xcvs ++ (blue_half (rbo_shuffled Pr s g).1)._m_xcvs
        = (rbo_shuffled Pr s g).1._m_xcvs ∧
      ∀ cv, (red_half (rbo_shuffled Pr s g).1)._m_xcvs.count cv +
          (blue_half (rbo_shuffled Pr s g).1)._m_xcvs.count cv
        = (rbo_shuffled Pr s g).1._m_xcvs.count cv) ∧
    ((rbo_shuffled Pr s g).1._m_pts =
        (Pr.random_shuffle_pts (Pr.random_shuffle_xcvs g s._m_xcvs).2 s._m_pts).1 ∧
      (red_half (rbo_shuffled Pr s g).1)._m_pts =
        (rbo_shuffled Pr s g).1._m_pts.take ((rbo_shuffled Pr s g).1._m_pts.length / 2) ∧
      (red_half (rbo_shuffled Pr s g).1)._m_pts.length =
        (rbo_shuffled Pr s g).1._m_pts.length / 2 ∧
      (blue_half (rbo_shuffled Pr s g).1)._m_pts.length =
        (rbo_shuffled Pr s g).1._m_pts.length - (rbo_shuffled Pr s g).1._m_pts.length / 2 ∧
      (red_half (rbo_shuffled Pr s g).1)._m_pts ++ (blue_half (rbo_shuffled Pr s g).1)._m_pts
        = (rbo_shuffled Pr s g).1._m_pts ∧
      ∀ p, (red_half (rbo_shuffled Pr s g).1)._m_pts.count p +
          (blue_half (rbo_shuffled Pr s g).1)._m_pts.count p
        = (rbo_shuffled Pr s g).1._m_pts.count p) := by
  refine ⟨⟨rfl, rfl, ?_, ?_, ?_, ?_⟩, ⟨rfl, rfl, ?_, ?_, ?_, ?_⟩⟩
  · simp only [red_half, half_instance, List.length_take]
    omega
  · simp only [blue_half, half_instance, List.length_drop]
  · simp only [red_half, blue_half, half_instance, List.take_append_drop]
  · intro cv
    simp only [red_half, blue_half, half_instance]
    rw [← List.count_append, List.take_append_drop]
  · simp only [red_half, half_instance, List.length_take]
    omega
  · simp only [blue_half, half_instance, List.length_drop]
  · simp only [red_half, blue_half, half_instance, List.take_append_drop]
  · intro p
    simp only [red_half, blue_half, half_instance]
    rw [← List.count_append, List.take_append_drop]

/-- C24: the recursion of `cell_rbo_naive` terminates. The call never ends by
exhausting the depth bound of the model, and any larger bound gives the same
result; with more than 4 classified objects (`c` curves, `p` points) each of
the two instances of a half holds strictly fewer classified objects, at most
`(c + 1) / 2 + (p + 1) / 2`; and the constructor classifies the objects of a
half into exactly its curves and its points. -/
theorem cell_rbo_naive_terminates [DecidableEq X] (K : Kernel P X C)
    (Pr : Prims P X V H F A G) (s : Construct_single_cell_2 P X C V H F A) (g : G) (pt : P) :
    cell_rbo_naive K Pr s g pt ≠ .error .out_of_fuel ∧
    (∀ fuel, size s < fuel →
      cell_rbo_naive_fuel K Pr fuel s g pt = cell_rbo_naive K Pr s g pt) ∧
    (4 < size s →
      size (red_half (rbo_shuffled Pr s g).1) < size s ∧
      size (blue_half (rbo_shuffled Pr s g).1) < size s ∧
      size (red_half (rbo_shuffled Pr s g).1)
        ≤ (s._m_xcvs.length + 1) / 2 + (s._m_pts.length + 1) / 2 ∧
      size (blue_half (rbo_shuffled Pr s g).1)
        ≤ (s._m_xcvs.length + 1) / 2 + (s._m_pts.length + 1) / 2) ∧
    (∀ (xcvs : List X) (pts : List P),
      (init K (half_objects xcvs pts) : Except Failure (Construct_single_cell_2 P X C V H F A))
        = .ok (half_instance xcvs pts) ∧
      (half_instance xcvs pts : Construct_single_cell_2 P X C V H F A)._m_xcvs = xcvs ∧
      (half_instance xcvs pts : Construct_single_cell_2 P X C V H F A)._m_pts = pts) := by
  refine ⟨cell_rbo_naive_fuel_free K Pr pt _ s g (le_refl _),
    fun fuel hf => cell_rbo_naive_fuel_eq K Pr pt fuel s g hf, ?_,
    fun xcvs pts => ⟨init_half_objects K xcvs pts, rfl, rfl⟩⟩
  intro hsize
  have hh := half_sizes Pr s g hsize
  have hc := half_counts Pr s g
  refine ⟨hh.1, hh.2, ?_, ?_⟩
  · rw [hc.1]; omega
  · rw [hc.2]; omega

/-- C24 on a fresh instance over five lines and two points: the red half holds
3 and the blue half 4 of the 7 objects. -/
theorem cell_rbo_naive_terminates_witness :
    4 < size (Lines.fresh [5, 1, 2, 7, 9] [(0, 0), (3, 4)]) ∧
    size (red_half (rbo_shuffled Lines.prims (Lines.fresh [5, 1, 2, 7, 9] [(0, 0), (3, 4)]) 0).1)
      < 7 ∧
    size (blue_half (rbo_shuffled Lines.prims (Lines.fresh [5, 1, 2, 7, 9] [(0, 0), (3, 4)]) 0).1)
      < 7 :=
  have h := (cell_rbo_naive_terminates Lines.kernel Lines.prims
    (Lines.fresh [5, 1, 2, 7, 9] [(0, 0), (3, 4)]) 0 (0, 6)).2.2.1 (by decide)
  ⟨by decide, h.1, h.2.1⟩

/-- C29: in the recursive case of `cell_rbo_naive`, with `c` curves and `p`
points and `c + p` at least 5, the red half holds `c / 2 + p / 2` objects,
which is at least 2, and the blue half holds at least as many; no instance of
a half is built from zero objects. -/
theorem halves_nonempty (Pr : Prims P X V H F A G) (s : Construct_single_cell_2 P X C V H F A)
    (g : G) (hsize : 5 ≤ s._m_xcvs.length + s._m_pts.length) :
    size (red_half (rbo_shuffled Pr s g).1) = s._m_xcvs.length / 2 + s._m_pts.length / 2 ∧
    2 ≤ size (red_half (rbo_shuffled Pr s g).1) ∧
    size (red_half (rbo_shuffled Pr s g).1) ≤ size (blue_half (rbo_shuffled Pr s g).1) ∧
    (red_half (rbo_shuffled Pr s g).1)._m_objects ≠ [] ∧
    (blue_half (rbo_shuffled Pr s g).1)._m_objects ≠ [] := by
  have hc := half_counts Pr s g
  have hr : (red_half (rbo_shuffled Pr s g).1)._m_objects.length
      = size (red_half (rbo_shuffled Pr s g).1) := by
    simp [red_half, half_instance, half_objects, size]
  have hb : (blue_half (rbo_shuffled Pr s g).1)._m_objects.length
      = size (blue_half (rbo_shuffled Pr s g).1) := by
    simp [blue_half, half_instance, half_objects, size]
  refine ⟨hc.1, by rw [hc.1]; omega, by rw [hc.1, hc.2]; omega, ?_, ?_⟩
  · intro h0
    rw [h0, hc.1] at hr
    simp only [List.length_nil] at hr
    omega
  · intro h0
    rw [h0, hc.2] at hb
    simp only [List.length_nil] at hb
    omega

/-- C29 on a fresh instance over four lines and one point: the red half holds
the 2 lines `y = 7` and `y = 2`, the blue half 2 lines and the point. -/
theorem halves_nonempty_witness :
    size (red_half (rbo_shuffled Lines.prims (Lines.fresh [5, 1, 2, 7] [(0, 0)]) 0).1) = 2 ∧
    (red_half (rbo_shuffled Lines.prims (Lines.fresh [5, 1, 2, 7] [(0, 0)]) 0).1)._m_xcvs
      = [7, 2] ∧
    size (blue_half (rbo_shuffled Lines.prims (Lines.fresh [5, 1, 2, 7] [(0, 0)]) 0).1) = 3 :=
  have h := halves_nonempty Lines.prims (Lines.fresh [5, 1, 2, 7] [(0, 0)]) 0 (by decide)
  ⟨h.1, by decide, by decide⟩

end CGAL.Construct_single_cell_2

/-!
The result slots shared between the strategies
-/

namespace CGAL.Construct_single_cell_2

variable {P X C V H F A G : Type}

/-- C27: on an instance whose slot `_m_cell_handle_rbo` is empty, `cell_rbo(p)`
returns the empty object and stores it in that slot, and a later
`cell_rbo_naive(q)` on the instance returns the empty object from the slot and
changes neither a member nor the generator state. -/
theorem cell_rbo_shares_slot [DecidableEq X] (K : Kernel P X C) (Pr : Prims P X V H F A G)
    (s : Construct_single_cell_2 P X C V H F A) (g : G) (p q : P)
    (hslot : s._m_cell_handle_rbo = none) :
    (cell_rbo s p).2 = Cell_object.empty ∧
    (cell_rbo s p).1 = { s with _m_cell_handle_rbo := some Cell_object.empty } ∧
    cell_rbo_naive K Pr (cell_rbo s p).1 g q = .ok ((cell_rbo s p).1, g, Cell_object.empty) := by
  have h : cell_rbo s p =
      ({ s with _m_cell_handle_rbo := some Cell_object.empty }, Cell_object.empty) := by
    simp [cell_rbo, hslot]
  rw [h]
  exact ⟨rfl, rfl, cell_rbo_naive_fuel_cached K Pr _ _ g q _ rfl⟩

/-- C27 on a fresh instance over five lines. -/
theorem cell_rbo_shares_slot_witness :
    (cell_rbo (Lines.fresh [5, 1, 2, 7, 9] []) ((0, 6) : Lines.Pt)).2 = Cell_object.empty ∧
    (cell_rbo_naive Lines.kernel Lines.prims
      (cell_rbo (Lines.fresh [5, 1, 2, 7, 9] []) ((0, 6) : Lines.Pt)).1 0 (0, 10)).map
      (fun r => r.2) = .ok (0, Cell_object.empty) :=
  have h := cell_rbo_shares_slot Lines.kernel Lines.prims (Lines.fresh [5, 1, 2, 7, 9] []) 0
    (0, 6) (0, 10) rfl
  ⟨h.1, by rw [h.2.2]; rfl⟩

theorem cell_pl_rbo_slot (Pr : Prims P X V H F A G) (s : Construct_single_cell_2 P X C V H F A)
    (pt : P) :
    (cell_pl Pr s pt).1._m_cell_handle_rbo = s._m_cell_handle_rbo := by
  unfold cell_pl
  cases h : s._m_cell_handle_pl <;> simp [h]

theorem cell_arr_pl_slot [DecidableEq X] (Pr : Prims P X V H F A G)
    (s s1 : Construct_single_cell_2 P X C V H F A) (a cell cell1 : A)
    (cell_handle : Cell_object V H F)
    (h : cell_arr Pr s a cell_handle cell = .ok (s1, cell1)) :
    s1._m_cell_handle_pl = s._m_cell_handle_pl ∧ s1._m_full_arr = s._m_full_arr := by
  unfold cell_arr at h
  dsimp only at h
  split at h
  · cases h
  · simp only [Except.ok.injEq, Prod.mk.injEq] at h
    obtain ⟨rfl, -⟩ := h
    exact ⟨rfl, rfl⟩

/-- C28: on an instance whose slot `_m_cell_handle_rbo` is empty and that holds
at most 4 classified objects, `cell_rbo_naive(q)` after `cell_pl(p)` returns
the handle `cell_pl(p)` returned, and `cell_rbo_naive(p)` fills the
point-location slot, so that a later `cell_pl(q)` returns the handle of `p`;
with more than 4 classified objects a call of `cell_rbo_naive` that returns
leaves the point-location slot and `_m_full_arr` of the instance as they
were. -/
theorem cell_rbo_naive_pl_slot [DecidableEq X] (K : Kernel P X C) (Pr : Prims P X V H F A G)
    (s : Construct_single_cell_2 P X C V H F A) (g : G) (p q : P)
    (hslot : s._m_cell_handle_rbo = none) :
    (size s ≤ 4 →
      (∃ s1, cell_rbo_naive K Pr (cell_pl Pr s p).1 g q = .ok (s1, g, (cell_pl Pr s p).2)) ∧
      (∃ s1, cell_rbo_naive K Pr s g p = .ok (s1, g, (cell_pl Pr s p).2) ∧
        cell_pl Pr s1 q = (s1, (cell_pl Pr s p).2))) ∧
    (4 < size s → ∀ s1 g1 ch, cell_rbo_naive K Pr s g p = .ok (s1, g1, ch) →
      s1._m_cell_handle_pl = s._m_cell_handle_pl ∧ s1._m_full_arr = s._m_full_arr) := by
  refine ⟨fun hsize => ⟨?_, ?_⟩, ?_⟩
  · have hm := cell_pl_members Pr s p
    have hsize1 : size (cell_pl Pr s p).1 ≤ 4 := by
      simp only [size, hm.1, hm.2.1]
      exact hsize
    obtain ⟨s1, h1, -⟩ := cell_rbo_naive_base K Pr (cell_pl Pr s p).1 g q
      ((cell_pl_rbo_slot Pr s p).trans hslot) hsize1
    rw [cell_pl_cached Pr _ q _ (cell_pl_slot Pr s p)] at h1
    exact ⟨s1, h1⟩
  · obtain ⟨s1, h1, h2, -⟩ := cell_rbo_naive_base K Pr s g p hslot hsize
    exact ⟨s1, h1, cell_pl_cached Pr s1 q _ h2⟩
  · intro hsize s1 g1 ch h
    rw [cell_rbo_naive_unfold K Pr s g p hslot hsize, rbo_split_ok_iff] at h
    obtain ⟨r0, g0, ch0, s2, M0, r1, ch1, s3, M1, -, hM0, -, hM1, -, rfl⟩ := h
    have h2 := cell_arr_pl_slot Pr _ _ _ _ _ _ hM0
    have h3 := cell_arr_pl_slot Pr _ _ _ _ _ _ hM1
    exact ⟨h3.1.trans h2.1, h3.2.trans h2.2⟩

/-- C28 on fresh instances: over three lines, `cell_rbo_naive((0, 10))` after
`cell_pl((0, 6))` returns the face under `y = 7`; over five lines the
point-location slot stays empty. -/
theorem cell_rbo_naive_pl_slot_witness :
    (∃ s1, cell_rbo_naive Lines.kernel Lines.prims
        (cell_pl Lines.prims (Lines.fresh [5, 1, 7] []) (0, 6)).1 0 (0, 10)
        = .ok (s1, 0, .face (.below (some 7)))) ∧
    (cell_rbo_naive Lines.kernel Lines.prims (Lines.fresh [5, 1, 2, 7, 9] []) 0 (0, 6)).map
      (fun r => r.1._m_cell_handle_pl) = .ok none := by
  have h := cell_rbo_naive_pl_slot Lines.kernel Lines.prims (Lines.fresh [5, 1, 7] []) 0
    (0, 6) (0, 10) rfl
  obtain ⟨s1, h1⟩ := (h.1 (by decide)).1
  have hpl : (cell_pl Lines.prims (Lines.fresh [5, 1, 7] []) (0, 6)).2
      = .face (.below (some 7)) := by decide
  rw [hpl] at h1
  exact ⟨⟨s1, h1⟩, rfl⟩

end CGAL.Construct_single_cell_2

/-!
The observer and the handle that the incremental strategy returns
-/

namespace CGAL.RI_observer

variable {P X C V H F A G : Type}

theorem init_members [DecidableEq V] (Pr : Prims P X V H F A G) (arr : A) (pt : P)
    (obs : RI_observer P V H F) (h : init Pr arr pt = .ok obs) :
    obs._m_halfedge_handle =
      Pr.twin arr (Pr.circulator_incr arr (Pr.incident_halfedges arr (Pr.top_right_vertex arr))) ∧
    obs._m_cell_handle = .face (Pr.face arr obs._m_halfedge_handle) ∧
    Pr.direction arr obs._m_halfedge_handle = .ARR_RIGHT_TO_LEFT := by
  unfold init at h
  dsimp only at h
  split at h
  · split at h
    · rename_i hd
      simp only [Except.ok.injEq] at h
      subst h
      exact ⟨rfl, rfl, hd⟩
    · cases h
  · cases h

theorem retarget_direction (Pr : Prims P X V H F A G) (arr : A) (e : H)
    (htwin : Pr.direction arr (Pr.twin arr e) ≠ Pr.direction arr e) :
    Pr.direction arr (if Pr.direction arr e = .ARR_RIGHT_TO_LEFT then e else Pr.twin arr e)
      = .ARR_RIGHT_TO_LEFT := by
  by_cases hd : Pr.direction arr e = .ARR_RIGHT_TO_LEFT
  · rw [if_pos hd]
    exact hd
  · rw [if_neg hd]
    cases hde : Pr.direction arr e with
    | ARR_RIGHT_TO_LEFT => exact absurd hde hd
    | ARR_LEFT_TO_RIGHT =>
      cases hdt : Pr.direction arr (Pr.twin arr e) with
      | ARR_RIGHT_TO_LEFT => rfl
      | ARR_LEFT_TO_RIGHT => exact absurd (hdt.trans hde.symm) htwin

theorem before_split_face_handle (K : Kernel P X C) (Pr : Prims P X V H F A G) (arr : A)
    (o : RI_observer P V H F) (e : H) :
    (before_split_face K Pr arr o e)._m_halfedge_handle = o._m_halfedge_handle ∨
    (before_split_face K Pr arr o e)._m_halfedge_handle =
      (if Pr.direction arr e = .ARR_RIGHT_TO_LEFT then e else Pr.twin arr e) := by
  unfold before_split_face
  dsimp only
  repeat' split
  all_goals first
    | exact Or.inl rfl
    | exact Or.inr rfl

theorem notify_direction (K : Kernel P X C) (Pr : Prims P X V H F A G)
    (hdir : ∀ a1 a2 h, Pr.direction a1 h = Pr.direction a2 h)
    (arr : A) (o : RI_observer P V H F) (n : Notification X V H F)
    (htwin : ∀ f e, n = .before_split_face f e →
      Pr.direction arr (Pr.twin arr e) ≠ Pr.direction arr e)
    (ho : Pr.direction arr o._m_halfedge_handle = .ARR_RIGHT_TO_LEFT) :
    Pr.direction arr (o.notify K Pr arr n)._m_halfedge_handle = .ARR_RIGHT_TO_LEFT := by
  have _ := hdir
  cases n with
  | before_split_face f e =>
    rcases before_split_face_handle K Pr arr o e with h | h
    · simp only [notify, h]
      exact ho
    · simp only [notify, h]
      exact retarget_direction Pr arr e (htwin f e rfl)
  | after_split_face f new_f is_hole => exact ho
  | before_split_edge e v c1 c2 => exact ho
  | after_split_edge e1 e2 => exact ho
  | before_split_fictitious_edge e v => exact ho
  | after_split_fictitious_edge e1 e2 => exact ho

theorem notify_all_direction (K : Kernel P X C) (Pr : Prims P X V H F A G)
    (hdir : ∀ a1 a2 h, Pr.direction a1 h = Pr.direction a2 h)
    (trace : List (A × Notification X V H F)) (o : RI_observer P V H F) (arr : A)
    (htwin : ∀ n ∈ trace, ∀ f e, n.2 = .before_split_face f e →
      Pr.direction n.1 (Pr.twin n.1 e) ≠ Pr.direction n.1 e)
    (ho : Pr.direction arr o._m_halfedge_handle = .ARR_RIGHT_TO_LEFT) :
    Pr.direction arr (o.notify_all K Pr trace)._m_halfedge_handle = .ARR_RIGHT_TO_LEFT := by
  induction trace generalizing o with
  | nil => exact ho
  | cons n rest ih =>
    rw [notify_all, List.foldl_cons]
    refine ih _ (fun m hm => htwin m (List.mem_cons_of_mem _ hm)) ?_
    rw [hdir arr n.1]
    exact notify_direction K Pr hdir n.1 o n.2 (htwin n (List.mem_cons_self _ _))
      ((hdir n.1 arr _).trans ho)

/-- C21: when the constructor of the observer has returned (so that the initial
tracked halfedge is directed right to left), the direction of a halfedge does
not depend on the state of the arrangement, and the new edge of every face
split and its twin have opposite directions, then after any sequence of
notifications the tracked halfedge is directed right to left, and `on_update`
passes its assertion. -/
theorem tracked_halfedge_right_to_left [DecidableEq V] (K : Kernel P X C)
    (Pr : Prims P X V H F A G) (arr0 : A) (pt : P) (obs : RI_observer P V H F)
    (hinit : init Pr arr0 pt = .ok obs)
    (hdir : ∀ a1 a2 h, Pr.direction a1 h = Pr.direction a2 h)
    (trace : List (A × Notification X V H F))
    (htwin : ∀ n ∈ trace, ∀ f e, n.2 = .before_split_face f e →
      Pr.direction n.1 (Pr.twin n.1 e) ≠ Pr.direction n.1 e)
    (arr : A) :
    Pr.direction arr (obs.notify_all K Pr trace)._m_halfedge_handle = .ARR_RIGHT_TO_LEFT ∧
    (obs.notify_all K Pr trace).on_update Pr arr =
      .ok { obs.notify_all K Pr trace with
            _m_cell_handle := .face (Pr.face arr (obs.notify_all K Pr trace)._m_halfedge_handle) }
    := by
  have h0 : Pr.direction arr obs._m_halfedge_handle = .ARR_RIGHT_TO_LEFT :=
    (hdir arr arr0 _).trans (init_members Pr arr0 pt obs hinit).2.2
  have h1 := notify_all_direction K Pr hdir trace obs arr htwin h0
  refine ⟨h1, ?_⟩
  unfold on_update
  rw [if_pos h1]

/-- C21 in the world of horizontal lines whose frame reads as the line
`y = 100`, for the notifications of the insertion of `y = 5` and the query
point `(0, 2)`: the tracked halfedge becomes the right-to-left halfedge of the
line. -/
theorem tracked_halfedge_right_to_left_witness :
    init (Lines.prims_top 100) ⟨[], []⟩ (0, 2)
      = .ok ⟨(0, 2), Lines.Hedge.top true, Cell_object.face (Lines.Fc.below none)⟩ ∧
    (notify_all Lines.kernel (Lines.prims_top 100)
      ⟨(0, 2), Lines.Hedge.top true, Cell_object.face (Lines.Fc.below none)⟩
      (Lines.insert_line ⟨[], []⟩ 5).1)._m_halfedge_handle = .line 5 true ∧
    Lines.direction (notify_all Lines.kernel (Lines.prims_top 100)
      ⟨(0, 2), Lines.Hedge.top true, Cell_object.face (Lines.Fc.below none)⟩
      (Lines.insert_line ⟨[], []⟩ 5).1)._m_halfedge_handle = .ARR_RIGHT_TO_LEFT :=
  ⟨rfl, rfl,
    (tracked_halfedge_right_to_left Lines.kernel (Lines.prims_top 100) ⟨[], []⟩ (0, 2)
      ⟨(0, 2), Lines.Hedge.top true, Cell_object.face (Lines.Fc.below none)⟩ rfl
      (fun _ _ _ => rfl) (Lines.insert_line ⟨[], []⟩ 5).1
      (fun n hn f e he => by
        have hn2 : n = (⟨[5], []⟩, Notification.before_split_face (Lines.Fc.below none)
              (Lines.Hedge.line 5 false)) ∨
            n = (⟨[5], []⟩, Notification.after_split_face (Lines.Fc.below none)
              (Lines.Fc.below (some 5)) false) := by
          simpa [Lines.insert_line, Lines.line_above] using hn
        rcases hn2 with rfl | rfl
        · simp only [Notification.before_split_face.injEq] at he
          obtain ⟨-, rfl⟩ := he
          decide
        · cases he)
      ⟨[5], []⟩).1⟩

end CGAL.RI_observer

namespace CGAL.Construct_single_cell_2

variable {P X C V H F A G : Type}

theorem ri_loop_returns [DecidableEq X] (K : Kernel P X C) (Pr : Prims P X V H F A G)
    (fh : F) (l : List X) (s : Construct_single_cell_2 P X C V H F A) (city : A)
    (obs : RI_observer P V H F) (cell_handle : Cell_object V H F)
    (h : obs._m_cell_handle = .face fh) :
    ∃ s1 city1 obs1 cell_handle1,
      ri_loop K Pr s city obs cell_handle l = .ok (s1, city1, obs1, cell_handle1) ∧
      (l ≠ [] → cell_handle1 = .face fh) ∧ (l = [] → cell_handle1 = cell_handle) := by
  induction l generalizing s city obs cell_handle with
  | nil => exact ⟨s, city, obs, cell_handle, rfl, fun h0 => absurd rfl h0, fun _ => rfl⟩
  | cons cv rest ih =>
    have hn : (obs.notify_all K Pr (Pr.insert city cv).1).cell_handle = .face fh := by
      simp only [RI_observer.cell_handle, RI_observer.notify_all_cell_handle, h]
    have hn2 : (obs.notify_all K Pr (Pr.insert city cv).1)._m_cell_handle = .face fh := hn
    obtain ⟨s1, city1, obs1, ch1, h1, h2, h3⟩ :=
      ih { s with _mt_cell := s._mt_cell.start.stop }
        (Pr.non_intersecting_insert_empty Pr.empty_arr
          (face_xcvs Pr (Pr.insert city cv).2 fh) (face_pts Pr (Pr.insert city cv).2 fh))
        (obs.notify_all K Pr (Pr.insert city cv).1) (.face fh) hn2
    refine ⟨s1, city1, obs1, ch1, ?_, fun _ => ?_, fun h0 => by cases h0⟩
    · simp only [ri_loop, hn]
      exact h1
    · by_cases hr : rest = []
      · exact h3 hr
      · exact h2 hr

/-- C25: the notifications leave the handle that `cell_handle()` returns as it
is, so without a call of `on_update` it is the face handle computed in the
constructor, the face of the initial tracked halfedge in the points-only
arrangement; and on an instance with an empty slot and at least one classified
curve, for a query point that point location places in a face of the
points-only arrangement, `cell_ri` returns, and returns that handle. -/
theorem cell_ri_returns_construction_handle [DecidableEq X] [DecidableEq V] (K : Kernel P X C)
    (Pr : Prims P X V H F A G) (s : Construct_single_cell_2 P X C V H F A) (g : G) (pt : P)
    (fh : F) (obs : RI_observer P V H F)
    (hslot : s._m_cell_handle_ri = none)
    (hloc : Pr.locate (Pr.non_intersecting_insert_empty Pr.empty_arr [] s._m_pts) pt = .face fh)
    (hne : s._m_xcvs ≠ [])
    (hinit : RI_observer.init Pr (Pr.non_intersecting_insert_empty Pr.empty_arr [] s._m_pts) pt
      = .ok obs) :
    (∀ (o : RI_observer P V H F) (trace : List (A × Notification X V H F)),
      (o.notify_all K Pr trace).cell_handle = o.cell_handle) ∧
    obs.cell_handle = .face (Pr.face (Pr.non_intersecting_insert_empty Pr.empty_arr [] s._m_pts)
      (Pr.twin (Pr.non_intersecting_insert_empty Pr.empty_arr [] s._m_pts)
        (Pr.circulator_incr (Pr.non_intersecting_insert_empty Pr.empty_arr [] s._m_pts)
          (Pr.incident_halfedges (Pr.non_intersecting_insert_empty Pr.empty_arr [] s._m_pts)
            (Pr.top_right_vertex
              (Pr.non_intersecting_insert_empty Pr.empty_arr [] s._m_pts)))))) ∧
    ∃ s1, cell_ri K Pr s g pt
      = .ok (s1, (Pr.random_shuffle_xcvs g s._m_xcvs).2, obs.cell_handle) := by
  have hm := RI_observer.init_members Pr _ pt obs hinit
  have hch : obs._m_cell_handle = .face (Pr.face
      (Pr.non_intersecting_insert_empty Pr.empty_arr [] s._m_pts) obs._m_halfedge_handle) :=
    hm.2.1
  refine ⟨fun o trace => RI_observer.notify_all_cell_handle K Pr trace o, ?_, ?_⟩
  · rw [← hm.1]
    exact hch
  · have hsh : (Pr.random_shuffle_xcvs g s._m_xcvs).1 ≠ [] := by
      intro h0
      have := (Pr.random_shuffle_xcvs_perm g s._m_xcvs).length_eq
      rw [h0] at this
      exact hne (List.length_eq_zero.1 this.symm)
    obtain ⟨s1, city1, obs1, ch1, h1, h2, -⟩ := ri_loop_returns K Pr _
      (Pr.random_shuffle_xcvs g s._m_xcvs).1
      { s with
        _m_arr_city := some (Pr.non_intersecting_insert_empty Pr.empty_arr [] s._m_pts),
        _m_xcvs := (Pr.random_shuffle_xcvs g s._m_xcvs).1 }
      (Pr.non_intersecting_insert_empty Pr.empty_arr [] s._m_pts) obs
      (Cell_object.face (Pr.faces_begin
        (Pr.non_intersecting_insert_empty Pr.empty_arr [] s._m_pts))) hch
    have h3 := h2 hsh
    subst h3
    refine ⟨{ s1 with _m_arr_city := some city1,
                      _m_cell_handle_ri := some obs.cell_handle }, ?_⟩
    unfold cell_ri
    split
    · rename_i c0 hs
      rw [hslot] at hs
      cases hs
    · dsimp only
      split
      · rw [hinit]
        dsimp only
        rw [h1]
        dsimp only
        rw [RI_observer.cell_handle, hch]
      · rename_i hnf
        exact absurd hloc (hnf fh)

/-- C25 in the world of horizontal lines whose frame reads as the line
`y = 100`, for the line `y = 5` and the query point `(0, 2)`: the face split
retargets the tracked halfedge to the line, and `cell_ri` returns the face
under the top edge of the frame that the constructor computed. -/
theorem cell_ri_returns_construction_handle_witness :
    (RI_observer.notify_all Lines.kernel (Lines.prims_top 100)
      ⟨(0, 2), Lines.Hedge.top true, Cell_object.face (Lines.Fc.below none)⟩
      (Lines.insert_line ⟨[], []⟩ 5).1)
      = ⟨(0, 2), Lines.Hedge.line 5 true, Cell_object.face (Lines.Fc.below none)⟩ ∧
    ∃ s1, cell_ri Lines.kernel (Lines.prims_top 100) (Lines.fresh [5] []) 0 (0, 2)
      = .ok (s1, 1, .face (.below none)) :=
  ⟨rfl, (cell_ri_returns_construction_handle Lines.kernel (Lines.prims_top 100)
    (Lines.fresh [5] []) 0 (0, 2) (.below none)
    ⟨(0, 2), Lines.Hedge.top true, Cell_object.face (Lines.Fc.below none)⟩
    rfl rfl (by decide) rfl).2.2⟩

/-- C22 at a failing input (the line `y = 5`, the query point `(0, 2)` under
it): the handle `cell_ri` stores and returns is the handle the constructor of
the observer computed on the points-only arrangement, which holds no line; the
working arrangement has been replaced by the one of the line, in which the
query point lies in another face. -/
theorem cell_ri_handle_of_replaced_arrangement :
    (cell_ri Lines.kernel Lines.prims (Lines.fresh [5] []) 0 (0, 2)).map
      (fun r => (r.1._m_arr_city, r.1._m_cell_handle_ri, r.2.2))
      = .ok (some ⟨[5], []⟩, some (.face (.below none)), .face (.below none)) ∧
    (RI_observer.init Lines.prims
      (Lines.prims.non_intersecting_insert_empty Lines.prims.empty_arr [] []) (0, 2)).map
      RI_observer.cell_handle = .ok (.face (.below none)) ∧
    Lines.prims.non_intersecting_insert_empty Lines.prims.empty_arr [] [] = ⟨[], []⟩ ∧
    Lines.prims.locate ⟨[5], []⟩ (0, 2) = .face (.below (some 5)) :=
  ⟨rfl, rfl, rfl, rfl⟩

/-- C26 at a failing input (the line `y = 5`, the query point `(0, 2)` under
it): at the first face split after the construction of the observer the curve
of the new edge is not vertical, the query point is in its x-range and below
it, so `before_split_face` compares it with the curve of the tracked halfedge,
and the tracked halfedge is the halfedge of the top edge of the frame that the
constructor has set, which is fictitious. -/
theorem first_face_split_compares_frame_edge :
    RI_observer.init Lines.prims ⟨[], []⟩ (0, 2)
      = .ok ⟨(0, 2), Lines.Hedge.top true, Cell_object.face (Lines.Fc.below none)⟩ ∧
    (Lines.prims.insert ⟨[], []⟩ 5).1.head? =
      some (⟨[5], []⟩, .before_split_face (.below none) (.line 5 false)) ∧
    Lines.kernel.is_vertical (Lines.prims.curve ⟨[5], []⟩ (.line 5 false)) = false ∧
    Lines.kernel.is_in_x_range (Lines.prims.curve ⟨[5], []⟩ (.line 5 false)) (0, 2) = true ∧
    Lines.kernel.compare_y_at_x (0, 2) (Lines.prims.curve ⟨[5], []⟩ (.line 5 false))
      = .SMALLER ∧
    Lines.prims.is_fictitious ⟨[5], []⟩ (Lines.Hedge.top true) = true :=
  ⟨rfl, rfl, rfl, rfl, rfl, rfl⟩

end CGAL.Construct_single_cell_2

/-!
The orthogonal transform of a sphere
-/

namespace CGAL.Sphere_3

variable {FT : Type} [CommRing FT]

/-- C30: `orthogonal_transform(t)` returns the sphere whose center is the image
of the center under `t`, whose squared radius is the squared radius times the
squared length of the image of the vector `(1, 0, 0)` under the linear part of
`t`, and whose orientation is kept when `t` is even and reversed when `t` is
odd; the identity returns the sphere itself, and two odd transformations in
sequence restore the orientation. -/
theorem orthogonal_transform_spec (s : Sphere_3 FT) (t : Aff_transformation_3 FT) :
    (s.orthogonal_transform t).center = t.transform_point s.center ∧
    (s.orthogonal_transform t).squared_radius =
      s.squared_radius * (t.transform_vector ⟨1, 0, 0⟩).squared_length ∧
    (t.is_even = true → (s.orthogonal_transform t).orientation = s.orientation) ∧
    (t.is_even = false → (s.orthogonal_transform t).orientation = opposite s.orientation) ∧
    s.orthogonal_transform Aff_transformation_3.identity = s ∧
    (∀ t2 : Aff_transformation_3 FT, t.is_even = false → t2.is_even = false →
      ((s.orthogonal_transform t).orthogonal_transform t2).orientation = s.orientation) := by
  refine ⟨rfl, mul_comm _ _, ?_, ?_, ?_, ?_⟩
  · intro h
    simp [orthogonal_transform, h]
  · intro h
    simp [orthogonal_transform, h]
  · simp [orthogonal_transform, Aff_transformation_3.identity, Vector_3.squared_length]
  · intro t2 h h2
    cases ho : s.orientation <;> simp [orthogonal_transform, h, h2, ho, opposite]

/-- C30 over the integers, for the sphere of center `(1, 2, 3)` and squared
radius 4 and the reflection in the plane `x = 0`, which is odd. -/
theorem orthogonal_transform_spec_witness :
    (⟨⟨1, 2, 3⟩, 4, .POSITIVE⟩ : Sphere_3 ℤ).orthogonal_transform
        ⟨fun p => ⟨-p.x, p.y, p.z⟩, fun v => ⟨-v.x, v.y, v.z⟩, false⟩
      = ⟨⟨-1, 2, 3⟩, 4, .NEGATIVE⟩ ∧
    (((⟨⟨1, 2, 3⟩, 4, .POSITIVE⟩ : Sphere_3 ℤ).orthogonal_transform
        ⟨fun p => ⟨-p.x, p.y, p.z⟩, fun v => ⟨-v.x, v.y, v.z⟩, false⟩).orthogonal_transform
        ⟨fun p => ⟨-p.x, p.y, p.z⟩, fun v => ⟨-v.x, v.y, v.z⟩, false⟩).orientation
      = .POSITIVE :=
  ⟨by decide,
    (orthogonal_transform_spec (⟨⟨1, 2, 3⟩, 4, .POSITIVE⟩ : Sphere_3 ℤ)
      ⟨fun p => ⟨-p.x, p.y, p.z⟩, fun v => ⟨-v.x, v.y, v.z⟩, false⟩).2.2.2.2.2
      ⟨fun p => ⟨-p.x, p.y, p.z⟩, fun v => ⟨-v.x, v.y, v.z⟩, false⟩ rfl rfl⟩

end CGAL.Sphere_3
